import Mathlib

/-!
Shallow embedding of the ekam build driver core (`src/Driver.cpp`) and proofs
about it.

Modelling conventions:
* Canonical file names are byte strings (`List Nat`), since the C++ code
  compares `std::string` contents byte-wise (`char_traits<char>` compares as
  `unsigned char`).  The `/` separator is byte 47.
* `File` handles are modelled by a `Nat` key (`FileId`): the C++ `File::equals`
  equivalence classes.  `fileName`, `fileExists`, `fileHash` are environment
  functions carried in the state and never modified.
* `Provision` objects have address identity in C++ (the multi-index tables key
  on `Provision*`), modelled by a `Nat` key (`ProvId`) with a `provFile` map
  giving the underlying file.
* `ActionDriver` objects likewise are `Nat` keys (`ActionId`); their fields
  (`state`, `isRunning`, `srcfile`, `provisions`, `providedTags`, `outputs`)
  are maps in the driver state.
* The multi-index tables (`tagTable`, `dependencyTable`, `actionsByTrigger`,
  `triggers`) are lists of rows in insertion/iteration order; `add` appends,
  `erase<KEY>` filters, and `SearchIterator`/`equal_range` iteration is the
  filtered sublist in order.
* Dashboard calls, `runningAction` handles and directory creation are external
  side effects with no bearing on driver state and are omitted.
* `ensureRunning` / the `BuildContext` methods model C++ exceptions with
  `Except`.  Internal `logic_error`/`DEBUG_ERROR` paths (driver-bug
  assertions) are modelled as leaving the state unchanged at the point where
  the C++ code would abort; the invariants used in the theorems make those
  paths unreachable.
* The recursive reset cascade takes an explicit fuel argument; every theorem
  about it either holds for all fuel or requires only the small amount of fuel
  its statement consumes, never an "enough fuel for the whole cascade" oracle.
-/

namespace Ekam

/-- Canonical path names as byte strings (`std::string` contents). -/
abbrev ByteStr := List Nat

/-- The byte value of the `/` path separator. -/
def slashByte : Nat := 47

/-- `fileDepth` from Driver.cpp: number of `/` bytes in a canonical name. -/
def fileDepth (name : ByteStr) : Nat :=
  name.countP (fun c => c = slashByte)

/-- `commonPrefixLength` from Driver.cpp: index of the first mismatching byte
(or the shorter length when one string is a prefix of the other). -/
def commonPrefixLength : ByteStr → ByteStr → Nat
  | a :: as, b :: bs => if a = b then commonPrefixLength as bs + 1 else 0
  | _, _ => 0

/-- Byte-wise three-way comparison, as `std::string::compare` (bytes compared
as `unsigned char`; a proper prefix compares less). -/
def strCmp : ByteStr → ByteStr → Ordering
  | [], [] => Ordering.eq
  | [], _ :: _ => Ordering.lt
  | _ :: _, [] => Ordering.gt
  | a :: as, b :: bs =>
    if a < b then Ordering.lt
    else if b < a then Ordering.gt
    else strCmp as bs

/-- Tags: the well-known default tag, file-path tags, and other named tags. -/
inductive Tag where
  | defaultTag : Tag
  | fromFile (path : ByteStr) : Tag
  | named (n : Nat) : Tag
deriving DecidableEq

/-- The `ActionDriver` state enum from Driver.cpp. -/
inductive AState where
  | PENDING
  | RUNNING
  | DONE
  | PASSED
  | FAILED
deriving DecidableEq

/-- Identifier of a `File` equality class (`File::equals`). -/
abbrev FileId := Nat
/-- Identifier of a `Provision` object (address identity). -/
abbrev ProvId := Nat
/-- Identifier of an `ActionDriver` object (address identity). -/
abbrev ActionId := Nat
/-- Identifier of an `ActionFactory` object. -/
abbrev FactoryId := Nat

/-- The driver state: the `Driver`'s queues and tables plus the per-action
fields of every `ActionDriver`, and the static file-system / factory
environment. -/
structure DriverState where
  maxConcurrentActions : Nat
  /-- `pendingActions` deque; head of the list is the front of the queue. -/
  pendingActions : List ActionId
  /-- `activeActions` vector, in order. -/
  activeActions : List ActionId
  /-- `completedActionPtrs` map; modelled as the list of its keys. -/
  completedActions : List ActionId
  /-- `tagTable` rows `(tag, provision)` in iteration order. -/
  tagTable : List (Tag × ProvId)
  /-- `dependencyTable` rows `(tag, action, provision-or-null)`. -/
  dependencyTable : List (Tag × ActionId × Option ProvId)
  /-- `actionsByTrigger` multimap rows `(provision, action)`. -/
  actionsByTrigger : List (ProvId × ActionId)
  /-- `triggers` multimap rows `(tag, factory)`. -/
  triggers : List (Tag × FactoryId)
  /-- per-action `state` field. -/
  states : ActionId → AState
  /-- per-action `isRunning` flag. -/
  isRunning : ActionId → Bool
  /-- per-action `srcfile` (the file that caused the action to be created). -/
  srcFile : ActionId → FileId
  /-- per-action `srcHash`. -/
  srcHash : ActionId → Nat
  /-- per-action `provisions` vector (provision object ids, in order). -/
  provisions : ActionId → List ProvId
  /-- per-action `providedTags` vector, parallel to `provisions`. -/
  providedTags : ActionId → List (List Tag)
  /-- per-action `outputs` vector. -/
  outputs : ActionId → List FileId
  /-- per-action: whether a done callback is scheduled (`asyncCallbackOp`). -/
  doneCallbackQueued : ActionId → Bool
  /-- provision object → its `file` member. -/
  provFile : ProvId → FileId
  /-- provision object → its `contentHash` member. -/
  contentHash : ProvId → Nat
  /-- fresh-id counter for newly allocated provision objects. -/
  nextProv : ProvId
  /-- fresh-id counter for newly allocated action drivers. -/
  nextAction : ActionId
  /-- environment: `File::canonicalName`. -/
  fileName : FileId → ByteStr
  /-- environment: `File::exists`. -/
  fileExists : FileId → Bool
  /-- environment: `File::contentHash`. -/
  fileHash : FileId → Nat
  /-- environment: `tmp->relative(path)`. -/
  tmpRelative : ByteStr → FileId
  /-- environment: `ActionFactory::enumerateTriggerTags`. -/
  factoryTags : FactoryId → List Tag
  /-- environment: whether `ActionFactory::tryMakeAction(tag, file)` succeeds. -/
  tryMakeEnv : FactoryId → Tag → FileId → Bool

namespace DriverState

/-- Canonical name of a provision's underlying file. -/
def provName (st : DriverState) (p : ProvId) : ByteStr :=
  st.fileName (st.provFile p)

/-- Canonical name of an action's source file. -/
def srcName (st : DriverState) (a : ActionId) : ByteStr :=
  st.fileName (st.srcFile a)

end DriverState

/-- The provisions currently in the tag table under `tag`, in iteration order
(`TagTable::SearchIterator<TAG>`). -/
def tagCandidates (st : DriverState) (tag : Tag) : List ProvId :=
  (st.tagTable.filter (fun r => r.1 = tag)).map (fun r => r.2)

/-- The loop body of `choosePreferredProvider`: does `candidate` replace the
current `bestMatch`?  Mirrors the `continue` chain of Driver.cpp lines
503-535: the candidate wins iff it has a strictly longer common prefix with
the source name, or an equal prefix and strictly smaller depth, or equal
prefix and depth and a strictly smaller name (the `DEBUG_ERROR` equal-name
case keeps the current best). -/
def candidateBeats (srcName bestName candName : ByteStr) : Bool :=
  if commonPrefixLength srcName candName < commonPrefixLength srcName bestName
  then false
  else if commonPrefixLength srcName candName
      = commonPrefixLength srcName bestName then
    if fileDepth candName > fileDepth bestName then false
    else if fileDepth candName = fileDepth bestName then
      match strCmp bestName candName with
      | Ordering.lt => false
      | Ordering.eq => false
      | Ordering.gt => true
    else true
  else true

/-- `Driver::ActionDriver::choosePreferredProvider` (Driver.cpp 488-541):
iterate the tag table rows for `tag`; `NULL` when there are none, otherwise
fold the replacement test over the remaining candidates starting from the
first. -/
def choosePreferredProvider (st : DriverState) (a : ActionId) (tag : Tag) :
    Option ProvId :=
  match tagCandidates st tag with
  | [] => none
  | c :: rest =>
    some (rest.foldl
      (fun best cand =>
        if candidateBeats (st.srcName a) (st.provName best) (st.provName cand)
        then cand else best) c)

/-- Pointwise update of a per-object map. -/
def upd {α : Type} (f : Nat → α) (k : Nat) (v : α) : Nat → α :=
  fun x => if x = k then v else f x

/-- Exceptions thrown by `BuildContext` methods. -/
inductive CtxError where
  /-- `ensureRunning`: "Action is not running." -/
  | notRunning
  /-- `failed()`: "Called failed() after success()." -/
  | failedAfterSuccess
  /-- `failed()`: "Called failed() after passed()." -/
  | failedAfterPassed
deriving DecidableEq

/-- `Driver::ActionDriver::findProvider` (Driver.cpp 201-213): ensure running,
choose the preferred provider, record a dependency row (with the chosen
provision or null), and return the provider's file (or null). -/
def findProvider (st : DriverState) (a : ActionId) (tag : Tag) :
    Except CtxError (Option FileId × DriverState) :=
  if st.isRunning a = true then
    match choosePreferredProvider st a tag with
    | none =>
      Except.ok (none,
        { st with dependencyTable := st.dependencyTable ++ [(tag, a, none)] })
    | some p =>
      Except.ok (some (st.provFile p),
        { st with dependencyTable := st.dependencyTable ++ [(tag, a, some p)] })
  else Except.error CtxError.notRunning

/-- `Driver::ActionDriver::findInput` (Driver.cpp 215-219). -/
def findInput (st : DriverState) (a : ActionId) (path : ByteStr) :
    Except CtxError (Option FileId × DriverState) :=
  if st.isRunning a = true then findProvider st a (Tag.fromFile path)
  else Except.error CtxError.notRunning

/-- Index of the first provision in `l` whose underlying file equals `f`
(`provisions.get(i)->file->equals(file)`). -/
def findFileIdx (pf : ProvId → FileId) (f : FileId) : List ProvId → Option Nat
  | [] => none
  | p :: ps =>
    if pf p = f then some 0 else (findFileIdx pf f ps).map (fun i => i + 1)

/-- Index of the first existing provision of `a` whose file equals `f`
(the search loop of `provide`, Driver.cpp 227-233). -/
def provideFindIdx (st : DriverState) (a : ActionId) (f : FileId) : Option Nat :=
  findFileIdx st.provFile f (st.provisions a)

/-- The state change performed by `provide` (Driver.cpp 224-246): if a
provision with an equal underlying file exists, append `tags` to its tag
vector; otherwise allocate a fresh provision carrying `tags`; in both cases
(re)assign the provision's file to (a clone of) `f`. -/
def provideApply (st : DriverState) (a : ActionId) (f : FileId)
    (tags : List Tag) : DriverState :=
  match provideFindIdx st a f with
  | some i =>
    match (st.provisions a)[i]? with
    | some p =>
      { st with
        providedTags :=
          upd st.providedTags a ((st.providedTags a).modify (· ++ tags) i),
        provFile := upd st.provFile p f }
    | none => st
  | none =>
    { st with
      nextProv := st.nextProv + 1,
      provisions := upd st.provisions a (st.provisions a ++ [st.nextProv]),
      providedTags := upd st.providedTags a (st.providedTags a ++ [tags]),
      provFile := upd st.provFile st.nextProv f }

/-- `Driver::ActionDriver::provide` (Driver.cpp 221-247): ensure the action is
running, then apply the provision-recording state change. -/
def provide (st : DriverState) (a : ActionId) (f : FileId) (tags : List Tag) :
    Except CtxError DriverState :=
  if st.isRunning a = true then Except.ok (provideApply st a f tags)
  else Except.error CtxError.notRunning

/-- `Driver::ActionDriver::log` (Driver.cpp 249-252); the dashboard output is
external. -/
def logCtx (st : DriverState) (a : ActionId) (text : ByteStr) :
    Except CtxError DriverState :=
  if st.isRunning a = true then Except.ok st
  else Except.error CtxError.notRunning

/-- `Driver::ActionDriver::newOutput` (Driver.cpp 254-270): allocate the file
under tmp, provide it with the default tag, and append it to `outputs`.
Directory creation is an external side effect. -/
def newOutput (st : DriverState) (a : ActionId) (path : ByteStr) :
    Except CtxError (FileId × DriverState) :=
  if st.isRunning a = true then
    let f := st.tmpRelative path
    match provide st a f [Tag.defaultTag] with
    | Except.ok st1 =>
      Except.ok (f, { st1 with outputs := upd st1.outputs a (st1.outputs a ++ [f]) })
    | Except.error e => Except.error e
  else Except.error CtxError.notRunning

/-- `Driver::queueNewAction` (Driver.cpp 641-654): allocate a fresh
`ActionDriver` (constructor: state PENDING, not running, `srcfile` cloned from
the triggering provision's file, `srcHash` from its content hash), record it
in `actionsByTrigger`, and push it on the front of the pending queue. -/
def queueNewAction (st : DriverState) (p : ProvId) : DriverState :=
  { st with
    nextAction := st.nextAction + 1,
    states := upd st.states st.nextAction AState.PENDING,
    isRunning := upd st.isRunning st.nextAction false,
    srcFile := upd st.srcFile st.nextAction (st.provFile p),
    srcHash := upd st.srcHash st.nextAction (st.contentHash p),
    provisions := upd st.provisions st.nextAction [],
    providedTags := upd st.providedTags st.nextAction [],
    outputs := upd st.outputs st.nextAction [],
    doneCallbackQueued := upd st.doneCallbackQueued st.nextAction false,
    actionsByTrigger := st.actionsByTrigger ++ [(p, st.nextAction)],
    pendingActions := st.nextAction :: st.pendingActions }

/-- `Driver::addActionFactory` (Driver.cpp 563-569). -/
def addActionFactory (st : DriverState) (f : FactoryId) : DriverState :=
  { st with triggers := st.triggers ++ (st.factoryTags f).map (fun t => (t, f)) }

/-- `Driver::rescanForNewFactory` (Driver.cpp 626-639): for each trigger tag
of the factory, offer every provision currently carrying that tag to the
factory and queue any produced action. -/
def rescanForNewFactory (st : DriverState) (f : FactoryId) : DriverState :=
  (st.factoryTags f).foldl
    (fun acc t =>
      (tagCandidates acc t).foldl
        (fun acc2 p =>
          if acc2.tryMakeEnv f t (acc2.provFile p) then queueNewAction acc2 p
          else acc2) acc) st

/-- `Driver::ActionDriver::addActionType` (Driver.cpp 272-277). -/
def addActionType (st : DriverState) (a : ActionId) (f : FactoryId) :
    Except CtxError DriverState :=
  if st.isRunning a = true then
    Except.ok (rescanForNewFactory (addActionFactory st f) f)
  else Except.error CtxError.notRunning

/-- `Driver::ActionDriver::noMoreEvents` (Driver.cpp 279-286). -/
def noMoreEvents (st : DriverState) (a : ActionId) :
    Except CtxError DriverState :=
  if st.isRunning a = true then
    if st.states a = AState.RUNNING then
      Except.ok
        { st with
          states := upd st.states a AState.DONE,
          doneCallbackQueued := upd st.doneCallbackQueued a true }
    else Except.ok st
  else Except.error CtxError.notRunning

/-- `Driver::ActionDriver::passed` (Driver.cpp 288-298): ignored after
`failed()`, otherwise unconditionally set PASSED and queue the done
callback. -/
def passed (st : DriverState) (a : ActionId) : Except CtxError DriverState :=
  if st.isRunning a = true then
    if st.states a = AState.FAILED then Except.ok st
    else
      Except.ok
        { st with
          states := upd st.states a AState.PASSED,
          doneCallbackQueued := upd st.doneCallbackQueued a true }
  else Except.error CtxError.notRunning

/-- `Driver::ActionDriver::failed` (Driver.cpp 300-316): ignored when already
FAILED, an error after DONE or PASSED, otherwise set FAILED and queue the
done callback. -/
def failed (st : DriverState) (a : ActionId) : Except CtxError DriverState :=
  if st.isRunning a = true then
    if st.states a = AState.FAILED then Except.ok st
    else if st.states a = AState.DONE then Except.error CtxError.failedAfterSuccess
    else if st.states a = AState.PASSED then Except.error CtxError.failedAfterPassed
    else
      Except.ok
        { st with
          states := upd st.states a AState.FAILED,
          doneCallbackQueued := upd st.doneCallbackQueued a true }
  else Except.error CtxError.notRunning

/-- The pending-queue deletion scan of Driver.cpp 463-469: iterate from the
back and remove the first match found, i.e. remove the last occurrence. -/
def removeLastOccurrence (l : List ActionId) (a : ActionId) : List ActionId :=
  (l.reverse.erase a).reverse

/-- One iteration of the trigger-spawned-action deletion loop
(Driver.cpp 457-469), parameterised by the recursive reset: reset the action,
then remove it from the pending queue. -/
def resetDelStepWith (resetF : DriverState → ActionId → DriverState)
    (acc : DriverState) (b : ActionId) : DriverState :=
  let acc1 := resetF acc b
  { acc1 with pendingActions := removeLastOccurrence acc1.pendingActions b }

/-- The dependents block of `reset`'s per-provision loop (Driver.cpp 433-444):
collect every action with a dependency row on provision `p` and reset each. -/
def resetProvDeps (resetF : DriverState → ActionId → DriverState)
    (st : DriverState) (p : ProvId) : DriverState :=
  ((st.dependencyTable.filter (fun r => r.2.2 = some p)).map
    (fun r => r.2.1)).foldl resetF st

/-- The trigger-spawned deletion block of `reset`'s per-provision loop
(Driver.cpp 446-471): collect `actionsByTrigger[p]`, erase the whole range,
then reset each collected action and remove it from the pending queue. -/
def resetProvDels (resetF : DriverState → ActionId → DriverState)
    (st : DriverState) (p : ProvId) : DriverState :=
  ((st.actionsByTrigger.filter (fun r => r.1 = p)).map (fun r => r.2)).foldl
    (resetDelStepWith resetF)
    { st with
      actionsByTrigger := st.actionsByTrigger.filter (fun r => ¬ r.1 = p) }

/-- The table-erasure tail of `reset`'s per-provision loop
(Driver.cpp 473-477): erase provision `p` from the tag table and the
dependency table. -/
def resetProvErase (st : DriverState) (p : ProvId) : DriverState :=
  { st with
    tagTable := st.tagTable.filter (fun r => ¬ r.2 = p),
    dependencyTable := st.dependencyTable.filter (fun r => ¬ r.2.2 = some p) }

/-- The per-provision block of `reset` (Driver.cpp 430-477), parameterised by
the recursive reset; the trigger-spawned range is collected from the state
left by the dependents block, as in the source. -/
def resetProvWith (resetF : DriverState → ActionId → DriverState)
    (st : DriverState) (p : ProvId) : DriverState :=
  resetProvErase (resetProvDels resetF (resetProvDeps resetF st p) p) p

/-- Steps 2-4 of `reset` (Driver.cpp 399-427): detach the action from the
active set (cancelling its async callback) or from the completed set, set its
state to PENDING, and re-queue it at the back of the pending queue.  The
`logic_error` for an action missing from the completed set is modelled by
`List.erase` being a no-op there. -/
def resetBody (st : DriverState) (a : ActionId) : DriverState :=
  let st1 :=
    if st.isRunning a then
      { st with
        doneCallbackQueued := upd st.doneCallbackQueued a false,
        activeActions := st.activeActions.erase a,
        isRunning := upd st.isRunning a false }
    else
      { st with completedActions := st.completedActions.erase a }
  let st2 := { st1 with states := upd st1.states a AState.PENDING }
  { st2 with pendingActions := st2.pendingActions ++ [a] }

/-- Steps 5-7 of `reset` after the provision loop (Driver.cpp 480-485): erase
every dependency row keyed on this action, and clear its provisions, provided
tags and outputs. -/
def resetFinish (st : DriverState) (a : ActionId) : DriverState :=
  { st with
    dependencyTable := st.dependencyTable.filter (fun r => ¬ r.2.1 = a),
    provisions := upd st.provisions a [],
    providedTags := upd st.providedTags a [],
    outputs := upd st.outputs a [] }

/-- `Driver::ActionDriver::reset` (Driver.cpp 391-486).  The recursion through
dependent and trigger-spawned actions carries an explicit fuel; with fuel 0 a
nested reset leaves the state unchanged. -/
def reset : Nat → DriverState → ActionId → DriverState
  | 0, st, _ => st
  | fuel + 1, st, a =>
    if st.states a = AState.PENDING then st
    else
      resetFinish
        ((st.provisions a).foldl (resetProvWith (reset fuel)) (resetBody st a))
        a

/-- The collection loop of `Driver::resetDependentActions`
(Driver.cpp 674-683): the actions having a dependency row under `tag` whose
currently preferred provider differs from the recorded one. -/
def resetDependentActionsCollect (st : DriverState) (tag : Tag) :
    List ActionId :=
  ((st.dependencyTable.filter (fun r => r.1 = tag)).filter
    (fun r => ¬ choosePreferredProvider st r.2.1 tag = r.2.2)).map
    (fun r => r.2.1)

/-- `Driver::resetDependentActions` (Driver.cpp 669-688): reset every
collected action. -/
def resetDependentActions (fuel : Nat) (st : DriverState) (tag : Tag) :
    DriverState :=
  (resetDependentActionsCollect st tag).foldl (reset fuel) st

/-- `Driver::fireTriggers` (Driver.cpp 690-699). -/
def fireTriggers (st : DriverState) (tag : Tag) (p : ProvId) : DriverState :=
  ((st.triggers.filter (fun r => r.1 = tag)).map (fun r => r.2)).foldl
    (fun acc f =>
      if acc.tryMakeEnv f tag (acc.provFile p) then queueNewAction acc p
      else acc) st

/-- The per-tag body of `registerProvider`'s loop (Driver.cpp 659-666):
insert the row into the tag table, reset dependent actions of the tag, then
fire triggers. -/
def registerProviderTagStep (fuel : Nat) (p : ProvId) (acc : DriverState)
    (tag : Tag) : DriverState :=
  fireTriggers
    (resetDependentActions fuel
      { acc with tagTable := acc.tagTable ++ [(tag, p)] } tag) tag p

/-- `Driver::registerProvider` (Driver.cpp 656-667): capture the content hash,
then for each tag insert into the tag table, reset dependent actions, and
fire triggers. -/
def registerProvider (fuel : Nat) (st : DriverState) (p : ProvId)
    (tags : List Tag) : DriverState :=
  tags.foldl (registerProviderTagStep fuel p)
    { st with contentHash := upd st.contentHash p (st.fileHash (st.provFile p)) }

/-- The provider-registration loop of `returned` (Driver.cpp 384-386), which
reads `provisions` live (a nested reset of this very action may clear it
mid-loop): index `i` walks while it is below the current length; the first
`Nat` argument bounds the iteration count and is always called with the
initial length, which the loop can never exceed because `registerProvider`
never grows a provision list. -/
def returnedRegisterLoop (fuel : Nat) (a : ActionId) :
    Nat → Nat → DriverState → DriverState
  | 0, _, st => st
  | n + 1, i, st =>
    if i < (st.provisions a).length then
      returnedRegisterLoop fuel a n (i + 1)
        (registerProvider fuel st ((st.provisions a).getD i 0)
          ((st.providedTags a).getD i []))
    else st

/-- The provisions of `a` whose underlying file still exists — the filter of
Driver.cpp 373-381. -/
def survivingProvisions (st : DriverState) (a : ActionId) : List ProvId :=
  (st.provisions a).filter (fun p => st.fileExists (st.provFile p))

/-- The state at the start of `returned`'s success path: running flag
cleared, moved from the active to the completed set, provisions filtered to
the surviving ones. -/
def returnedSuccessState (st : DriverState) (a : ActionId) : DriverState :=
  { st with
    isRunning := upd st.isRunning a false,
    activeActions := st.activeActions.erase a,
    completedActions := st.completedActions ++ [a],
    provisions := upd st.provisions a (survivingProvisions st a) }

/-- `providedTags.clear()` (Driver.cpp 387). -/
def clearProvidedTags (st : DriverState) (a : ActionId) : DriverState :=
  { st with providedTags := upd st.providedTags a [] }

/-- `Driver::ActionDriver::returned` (Driver.cpp 344-389): stop running, move
from the active set to the completed set; on failure drop provisions, tags
and outputs; on success filter provisions whose file no longer exists and
register the survivors.  The unfiltered `providedTags` vector is read by
original index during registration, exactly as in the source.  `ensureRunning`
failing (an internal error) is modelled as no state change. -/
def returned (fuel : Nat) (st : DriverState) (a : ActionId) : DriverState :=
  if st.isRunning a = true then
    if st.states a = AState.FAILED then
      { st with
        isRunning := upd st.isRunning a false,
        activeActions := st.activeActions.erase a,
        completedActions := st.completedActions ++ [a],
        provisions := upd st.provisions a [],
        providedTags := upd st.providedTags a [],
        outputs := upd st.outputs a [] }
    else
      clearProvidedTags
        (returnedRegisterLoop fuel a (survivingProvisions st a).length 0
          (returnedSuccessState st a)) a
  else st

/-- `Driver::ActionDriver::threwException` / `threwUnknownException`
(Driver.cpp 328-342): cancel the async callback, set FAILED, and run
`returned` synchronously. -/
def threwException (fuel : Nat) (st : DriverState) (a : ActionId) :
    DriverState :=
  if st.isRunning a = true then
    returned fuel
      { st with
        doneCallbackQueued := upd st.doneCallbackQueued a false,
        states := upd st.states a AState.FAILED } a
  else st

/-- `Driver::ActionDriver::start` (Driver.cpp 184-199): transition PENDING →
RUNNING; the action body itself is scheduled on the event loop. -/
def startAction (st : DriverState) (a : ActionId) : DriverState :=
  { st with
    states := upd st.states a AState.RUNNING,
    isRunning := upd st.isRunning a true }

/-- `Driver::startSomeActions` (Driver.cpp 576-590): while the active set is
strictly below the concurrency bound and the pending queue is non-empty, pop
the front of the queue, append to the active set, and start the action. -/
def startSomeActions (st : DriverState) : DriverState :=
  if st.activeActions.length < st.maxConcurrentActions then
    match h : st.pendingActions with
    | [] => st
    | a :: rest =>
      startSomeActions
        (startAction
          { st with
            pendingActions := rest,
            activeActions := st.activeActions ++ [a] } a)
  else st
termination_by st.pendingActions.length
decreasing_by simp [startAction, h]

/-- `DoneCallback::run` (Driver.cpp 119-124): clear the callback handle, run
`returned`, then refill the active set. -/
def doneCallbackRun (fuel : Nat) (st : DriverState) (a : ActionId) :
    DriverState :=
  startSomeActions
    (returned fuel
      { st with doneCallbackQueued := upd st.doneCallbackQueued a false } a)

/-! ### Spec-side definitions and sample states used by the proofs -/

/-- The spec's strict preference order on canonical names, relative to the
requesting action's source name: longer common prefix first, then smaller
depth, then lexicographically smaller name. -/
def specPrefers (src x y : ByteStr) : Prop :=
  commonPrefixLength src y < commonPrefixLength src x
  ∨ (commonPrefixLength src x = commonPrefixLength src y ∧
      (fileDepth x < fileDepth y
        ∨ (fileDepth x = fileDepth y ∧ strCmp x y = Ordering.lt)))

/-- Whether a `BuildContext` call outcome is the `NotRunning` error. -/
def isNotRunningErr {α : Type} : Except CtxError α → Bool
  | Except.error CtxError.notRunning => true
  | _ => false

/-- A small concrete driver state: one running action (id 0) whose source file
is `foo/x`, and two provisions 1, 2 (files `foo/a`, `bar/a`) both carrying
tag `named 5`. -/
def sampleState : DriverState where
  maxConcurrentActions := 1
  pendingActions := []
  activeActions := [0]
  completedActions := []
  tagTable := [(Tag.named 5, 1), (Tag.named 5, 2)]
  dependencyTable := []
  actionsByTrigger := []
  triggers := []
  states := fun _ => AState.RUNNING
  isRunning := fun x => x = 0
  srcFile := fun _ => 0
  srcHash := fun _ => 0
  provisions := fun _ => []
  providedTags := fun _ => []
  outputs := fun _ => []
  doneCallbackQueued := fun _ => false
  provFile := fun p => p
  contentHash := fun _ => 0
  nextProv := 10
  nextAction := 10
  fileName := fun f =>
    if f = 1 then [102, 111, 111, 47, 97]
    else if f = 2 then [98, 97, 114, 47, 97]
    else [102, 111, 111, 47, 120]
  fileExists := fun _ => true
  fileHash := fun _ => 0
  tmpRelative := fun _ => 9
  factoryTags := fun _ => []
  tryMakeEnv := fun _ _ _ => false

/-- A sample state whose running action 0 already holds provision 1
(file 1) with tag list `[named 1]`. -/
def sampleStateProv : DriverState :=
  { sampleState with
    provisions := fun x => if x = 0 then [1] else [],
    providedTags := fun x => if x = 0 then [[Tag.named 1]] else [],
    nextProv := 5 }

/-- Scenario-6 sample: completed action 0 produced provision 1, which
triggered action 2, currently PENDING in the queue. -/
def sampleStateC3 : DriverState :=
  { sampleState with
    activeActions := [],
    completedActions := [0],
    pendingActions := [2],
    actionsByTrigger := [(1, 2)],
    states := fun x => if x = 2 then AState.PENDING else AState.DONE,
    isRunning := fun _ => false,
    provisions := fun x => if x = 0 then [1] else [],
    providedTags := fun x => if x = 0 then [[Tag.defaultTag]] else [] }

/-- What a reset cascade can only shrink or preserve: `st` is a possible
after-state of cascade work on `st0`.  Active set, completed set,
`actionsByTrigger` and every action's provision list only lose elements;
PENDING states stay PENDING; the pending-queue multiplicity of an action that
was already PENDING never grows; the concurrency bound is untouched. -/
def ResetLe (st st0 : DriverState) : Prop :=
  st.activeActions.Sublist st0.activeActions ∧
  st.completedActions.Sublist st0.completedActions ∧
  st.actionsByTrigger.Sublist st0.actionsByTrigger ∧
  (∀ b, st0.states b = AState.PENDING → st.states b = AState.PENDING) ∧
  (∀ b, st0.states b = AState.PENDING →
    st.pendingActions.count b ≤ st0.pendingActions.count b) ∧
  (∀ d, (st.provisions d).Sublist (st0.provisions d)) ∧
  st.maxConcurrentActions = st0.maxConcurrentActions

/-- The container discipline of the driver (spec invariants 1, 2, 6): pending
actions are PENDING and unduplicated, the active and completed sets are
unduplicated, a PENDING action is in neither the active nor the completed
set, a running action is not completed, and a non-running non-PENDING action
is not active. -/
def QueueInv (st : DriverState) : Prop :=
  (∀ b ∈ st.pendingActions, st.states b = AState.PENDING) ∧
  st.pendingActions.Nodup ∧
  st.activeActions.Nodup ∧
  st.completedActions.Nodup ∧
  (∀ b, st.states b = AState.PENDING →
    b ∉ st.activeActions ∧ b ∉ st.completedActions) ∧
  (∀ b, st.isRunning b = true → b ∉ st.completedActions) ∧
  (∀ b, st.isRunning b = false → st.states b ≠ AState.PENDING →
    b ∉ st.activeActions)

/-- Invariant carried through the cascade while action `A`'s reset is in
progress, before its provision `P`'s block runs: `A` is already PENDING (so
no nested reset touches it), no other action owns `P` (so no nested cascade
erases `actionsByTrigger` rows keyed on `P`), and the row `(P, B)` is still
in `actionsByTrigger`. -/
def TrigIntact (A : ActionId) (P : ProvId) (B : ActionId)
    (st : DriverState) : Prop :=
  st.states A = AState.PENDING ∧
  (∀ d, d ≠ A → P ∉ st.provisions d) ∧
  (P, B) ∈ st.actionsByTrigger

/-- The state of a trigger-spawned action after its deletion step: PENDING,
and gone from all three containers. -/
def Gone (B : ActionId) (st : DriverState) : Prop :=
  st.states B = AState.PENDING ∧
  st.pendingActions.count B = 0 ∧
  B ∉ st.activeActions ∧ B ∉ st.completedActions

/-! ### Properties of the byte-string comparator -/

theorem strCmp_self (x : ByteStr) : strCmp x x = Ordering.eq := by
  induction x with
  | nil => rfl
  | cons a as ih => simp [strCmp, ih]

theorem strCmp_eq_iff {x y : ByteStr} : strCmp x y = Ordering.eq ↔ x = y := by
  constructor
  · intro h
    induction x generalizing y with
    | nil => cases y with
      | nil => rfl
      | cons b bs => simp [strCmp] at h
    | cons a as ih =>
      cases y with
      | nil => simp [strCmp] at h
      | cons b bs =>
        simp only [strCmp] at h
        split_ifs at h with h1 h2
        have hab : a = b := Nat.le_antisymm (Nat.not_lt.mp h2) (Nat.not_lt.mp h1)
        rw [hab, ih h]
  · intro h; rw [h]; exact strCmp_self y

theorem strCmp_gt_iff {x y : ByteStr} :
    strCmp x y = Ordering.gt ↔ strCmp y x = Ordering.lt := by
  induction x generalizing y with
  | nil => cases y <;> simp [strCmp]
  | cons a as ih =>
    cases y with
    | nil => simp [strCmp]
    | cons b bs =>
      simp only [strCmp]
      rcases Nat.lt_trichotomy a b with h | h | h
      · simp [h, Nat.lt_asymm h, Nat.ne_of_lt h]
      · subst h; simp [Nat.lt_irrefl, ih]
      · simp [h, Nat.lt_asymm h, Nat.ne_of_gt h]

theorem strCmp_lt_trans {x y z : ByteStr} (hxy : strCmp x y = Ordering.lt)
    (hyz : strCmp y z = Ordering.lt) : strCmp x z = Ordering.lt := by
  induction x generalizing y z with
  | nil =>
    cases y with
    | nil => exact hyz
    | cons b bs =>
      cases z with
      | nil => simp [strCmp] at hyz
      | cons c cs => simp [strCmp]
  | cons a as ih =>
    cases y with
    | nil => simp [strCmp] at hxy
    | cons b bs =>
      cases z with
      | nil => simp [strCmp] at hyz
      | cons c cs =>
        simp only [strCmp] at hxy hyz ⊢
        split_ifs at hxy with h1 h2
        · -- a < b
          split_ifs at hyz with h3 h4
          · simp [Nat.lt_trans h1 h3]
          · have hbc : b = c := Nat.le_antisymm (Nat.not_lt.mp h4) (Nat.not_lt.mp h3)
            simp [hbc ▸ h1]
        · -- a = b
          have hab : a = b := Nat.le_antisymm (Nat.not_lt.mp h2) (Nat.not_lt.mp h1)
          subst hab
          split_ifs at hyz with h3 h4
          · simp [h3]
          · have hbc : a = c := Nat.le_antisymm (Nat.not_lt.mp h4) (Nat.not_lt.mp h3)
            subst hbc
            simp [Nat.lt_irrefl, ih hxy hyz]

theorem specPrefers_irrefl (src x : ByteStr) : ¬ specPrefers src x x := by
  intro h
  rcases h with h | ⟨-, h | ⟨-, h⟩⟩
  · exact Nat.lt_irrefl _ h
  · exact Nat.lt_irrefl _ h
  · rw [strCmp_self] at h; cases h

theorem specPrefers_trans {src x y z : ByteStr} (hxy : specPrefers src x y)
    (hyz : specPrefers src y z) : specPrefers src x z := by
  rcases hxy with h1 | ⟨h1, h2 | ⟨h2, h3⟩⟩ <;>
    rcases hyz with g1 | ⟨g1, g2 | ⟨g2, g3⟩⟩
  · exact Or.inl (by omega)
  · exact Or.inl (by omega)
  · exact Or.inl (by omega)
  · exact Or.inl (by omega)
  · exact Or.inr ⟨by omega, Or.inl (by omega)⟩
  · exact Or.inr ⟨by omega, Or.inl (by omega)⟩
  · exact Or.inl (by omega)
  · exact Or.inr ⟨by omega, Or.inl (by omega)⟩
  · exact Or.inr ⟨by omega, Or.inr ⟨by omega, strCmp_lt_trans h3 g3⟩⟩

theorem specPrefers_total (src x y : ByteStr) :
    specPrefers src x y ∨ specPrefers src y x ∨ x = y := by
  rcases Nat.lt_trichotomy (commonPrefixLength src x) (commonPrefixLength src y)
    with h | h | h
  · exact Or.inr (Or.inl (Or.inl h))
  · rcases Nat.lt_trichotomy (fileDepth x) (fileDepth y) with g | g | g
    · exact Or.inl (Or.inr ⟨h, Or.inl g⟩)
    · rcases ho : strCmp x y with _ | _ | _
      · exact Or.inl (Or.inr ⟨h, Or.inr ⟨g, ho⟩⟩)
      · exact Or.inr (Or.inr (strCmp_eq_iff.mp ho))
      · exact Or.inr (Or.inl (Or.inr ⟨h.symm, Or.inr ⟨g.symm, strCmp_gt_iff.mp ho⟩⟩))
    · exact Or.inr (Or.inl (Or.inr ⟨h.symm, Or.inl g⟩))
  · exact Or.inl (Or.inl h)

/-- The loop test of `choosePreferredProvider` decides exactly the spec's
strict preference of the candidate over the current best. -/
theorem candidateBeats_iff (src best cand : ByteStr) :
    candidateBeats src best cand = true ↔ specPrefers src cand best := by
  unfold candidateBeats specPrefers
  split_ifs with h1 h2 h3 h4
  · constructor
    · intro hx; exact absurd hx (by simp)
    · intro hc; exfalso
      rcases hc with hc | ⟨hc, -⟩ <;> omega
  · constructor
    · intro hx; exact absurd hx (by simp)
    · intro hc; exfalso
      rcases hc with hc | ⟨-, hc | ⟨hc, -⟩⟩ <;> omega
  · rcases ho : strCmp best cand with _ | _ | _
    · constructor
      · intro hx; exact absurd hx (by simp)
      · intro hc; exfalso
        rcases hc with hc | ⟨-, hc | ⟨-, hc⟩⟩
        · omega
        · omega
        · have hg := strCmp_gt_iff.mpr hc
          rw [ho] at hg; cases hg
    · constructor
      · intro hx; exact absurd hx (by simp)
      · have hbc : best = cand := strCmp_eq_iff.mp ho
        subst hbc
        intro hc; exfalso
        rcases hc with hc | ⟨-, hc | ⟨-, hc⟩⟩
        · omega
        · omega
        · rw [strCmp_self] at hc; cases hc
    · constructor
      · intro _
        exact Or.inr ⟨h2, Or.inr ⟨h4, strCmp_gt_iff.mp ho⟩⟩
      · intro _; rfl
  · constructor
    · intro _
      exact Or.inr ⟨h2, Or.inl (by omega)⟩
    · intro _; rfl
  · constructor
    · intro _
      exact Or.inl (by omega)
    · intro _; rfl

/-- The selection fold of `choosePreferredProvider` returns an element of the
candidate list. -/
theorem chooseFold_mem (src : ByteStr) (nm : ProvId → ByteStr) (c : ProvId)
    (rest : List ProvId) :
    rest.foldl
      (fun best cand => if candidateBeats src (nm best) (nm cand) then cand
        else best) c ∈ c :: rest := by
  induction rest generalizing c with
  | nil => exact List.mem_singleton.mpr rfl
  | cons r rs ih =>
    simp only [List.foldl_cons]
    rcases List.mem_cons.mp (ih (if candidateBeats src (nm c) (nm r) then r
      else c)) with h | h
    · rw [h]
      split
      · exact List.mem_cons_of_mem _ (List.mem_cons_self _ _)
      · exact List.mem_cons_self _ _
    · exact List.mem_cons_of_mem _ (List.mem_cons_of_mem _ h)

/-- No candidate is strictly preferred (per the spec's chain) over the result
of the selection fold. -/
theorem chooseFold_optimal (src : ByteStr) (nm : ProvId → ByteStr) (c : ProvId)
    (rest : List ProvId) :
    ∀ p ∈ c :: rest,
      ¬ specPrefers src (nm p)
        (nm (rest.foldl
          (fun best cand => if candidateBeats src (nm best) (nm cand) then cand
            else best) c)) := by
  induction rest generalizing c with
  | nil =>
    intro p hp
    rw [List.mem_singleton.mp hp]
    exact specPrefers_irrefl src (nm c)
  | cons r rs ih =>
    intro p hp
    simp only [List.foldl_cons]
    by_cases hb : candidateBeats src (nm c) (nm r) = true
    · rw [if_pos hb]
      rcases List.mem_cons.mp hp with hpc | hp2
      · subst hpc
        intro hcontra
        have hr := ih r r (List.mem_cons_self _ _)
        have hrc : specPrefers src (nm r) (nm p) := (candidateBeats_iff _ _ _).mp hb
        exact hr (specPrefers_trans hrc hcontra)
      · exact ih r p hp2
    · rw [if_neg hb]
      rcases List.mem_cons.mp hp with hpc | hp2
      · subst hpc; exact ih p p (List.mem_cons_self _ _)
      · rcases List.mem_cons.mp hp2 with hpr | hp3
        · subst hpr
          intro hcontra
          have hc := ih c c (List.mem_cons_self _ _)
          rcases specPrefers_total src (nm c) (nm p) with ht | ht | ht
          · exact hc (specPrefers_trans ht hcontra)
          · exact hb ((candidateBeats_iff _ _ _).mpr ht)
          · exact hc (ht ▸ hcontra)
        · exact ih c p (List.mem_cons_of_mem _ hp3)

/-- C1: `choosePreferredProvider(T)` for a requesting action with source file
`S` returns `NULL` exactly when no provision carries `T`; otherwise it
returns a provision from the tag table's candidates for `T` that no candidate
strictly beats under the spec's chain (longest byte-wise common prefix of
canonical paths with `S`'s, then fewest `/` separators, then
lexicographically smallest canonical path), and that strictly beats every
candidate with a different canonical path. -/
theorem claim_C1_choosePreferredProvider (st : DriverState) (a : ActionId)
    (tag : Tag) :
    (choosePreferredProvider st a tag = none ↔ tagCandidates st tag = []) ∧
    (∀ r, choosePreferredProvider st a tag = some r →
      r ∈ tagCandidates st tag ∧
      (∀ p ∈ tagCandidates st tag,
        ¬ specPrefers (st.srcName a) (st.provName p) (st.provName r)) ∧
      (∀ p ∈ tagCandidates st tag, st.provName p ≠ st.provName r →
        specPrefers (st.srcName a) (st.provName r) (st.provName p))) := by
  constructor
  · unfold choosePreferredProvider
    cases h : tagCandidates st tag with
    | nil => simp
    | cons c rest => simp
  · intro r hr
    unfold choosePreferredProvider at hr
    cases h : tagCandidates st tag with
    | nil => rw [h] at hr; cases hr
    | cons c rest =>
      rw [h] at hr
      have hrval := Option.some.inj hr
      have hmem := chooseFold_mem (st.srcName a) st.provName c rest
      have hopt := chooseFold_optimal (st.srcName a) st.provName c rest
      rw [hrval] at hmem hopt
      refine ⟨h ▸ hmem, h ▸ hopt, ?_⟩
      intro p hp hne
      rcases specPrefers_total (st.srcName a) (st.provName r) (st.provName p)
        with ht | ht | ht
      · exact ht
      · exact absurd ht (hopt p (h ▸ hp))
      · exact absurd ht.symm hne

/-! ### Sample states used by the witness theorems -/

/-- C1 witness data: on `sampleState`, provision 1 (`foo/a`) is returned for
tag `named 5` (source `foo/x`), it is a candidate, candidate 2 (`bar/a`) does
not beat it, and it strictly beats candidate 2. -/
theorem claim_C1_witness :
    choosePreferredProvider sampleState 0 (Tag.named 5) = some 1 ∧
    1 ∈ tagCandidates sampleState (Tag.named 5) ∧
    ¬ specPrefers (sampleState.srcName 0) (sampleState.provName 2)
      (sampleState.provName 1) ∧
    specPrefers (sampleState.srcName 0) (sampleState.provName 1)
      (sampleState.provName 2) := by
  have h := (claim_C1_choosePreferredProvider sampleState 0 (Tag.named 5)).2 1
    (by decide)
  exact ⟨by decide, h.1, h.2.1 2 (by decide), h.2.2 2 (by decide) (by decide)⟩

/-! ### C4 / C10: terminal transitions of `passed` and `failed` -/

/-- C4: while the action is still running, `failed()` in state DONE or PASSED
raises an error; `failed()` or `passed()` in state FAILED is ignored and the
state (indeed the whole driver state) is unchanged; `failed()` in state
RUNNING sets the state to FAILED and queues the done callback. -/
theorem claim_C4_failed_transitions (st : DriverState) (a : ActionId) :
    ((st.states a = AState.DONE ∨ st.states a = AState.PASSED) →
      ∃ e, failed st a = Except.error e) ∧
    (st.isRunning a = true → st.states a = AState.FAILED →
      failed st a = Except.ok st ∧ passed st a = Except.ok st) ∧
    (st.isRunning a = true → st.states a = AState.RUNNING →
      failed st a = Except.ok
        { st with
          states := upd st.states a AState.FAILED,
          doneCallbackQueued := upd st.doneCallbackQueued a true }) := by
  refine ⟨?_, ?_, ?_⟩
  · intro hs
    by_cases hr : st.isRunning a = true
    · rcases hs with h | h
      · exact ⟨CtxError.failedAfterSuccess, by simp [failed, hr, h]⟩
      · exact ⟨CtxError.failedAfterPassed, by simp [failed, hr, h]⟩
    · exact ⟨CtxError.notRunning, by simp [failed, hr]⟩
  · intro hr h
    exact ⟨by simp [failed, hr, h], by simp [passed, hr, h]⟩
  · intro hr h
    simp [failed, hr, h]

/-- C4 witness: concrete instances of the FAILED-ignored and
RUNNING-transition cases, and of the DONE-raises case. -/
theorem claim_C4_witness :
    (failed { sampleState with states := fun _ => AState.FAILED } 0 =
      Except.ok { sampleState with states := fun _ => AState.FAILED } ∧
     passed { sampleState with states := fun _ => AState.FAILED } 0 =
      Except.ok { sampleState with states := fun _ => AState.FAILED }) ∧
    failed sampleState 0 = Except.ok
      { sampleState with
        states := upd sampleState.states 0 AState.FAILED,
        doneCallbackQueued := upd sampleState.doneCallbackQueued 0 true } ∧
    (∃ e, failed { sampleState with states := fun _ => AState.DONE } 0 =
      Except.error e) :=
  ⟨(claim_C4_failed_transitions
      { sampleState with states := fun _ => AState.FAILED } 0).2.1 rfl rfl,
   (claim_C4_failed_transitions sampleState 0).2.2 rfl rfl,
   (claim_C4_failed_transitions
      { sampleState with states := fun _ => AState.DONE } 0).1 (Or.inl rfl)⟩

/-- C10: while the action is still running (before the deferred done callback
has run), `passed()` in state DONE or PASSED raises no error: it sets the
state to PASSED and queues the done callback again — while `failed()` raises
in those same states. -/
theorem claim_C10_passed_after_done (st : DriverState) (a : ActionId)
    (hr : st.isRunning a = true)
    (hs : st.states a = AState.DONE ∨ st.states a = AState.PASSED) :
    passed st a = Except.ok
      { st with
        states := upd st.states a AState.PASSED,
        doneCallbackQueued := upd st.doneCallbackQueued a true } ∧
    (∃ e, failed st a = Except.error e) := by
  rcases hs with h | h
  · exact ⟨by simp [passed, hr, h], ⟨CtxError.failedAfterSuccess,
      by simp [failed, hr, h]⟩⟩
  · exact ⟨by simp [passed, hr, h], ⟨CtxError.failedAfterPassed,
      by simp [failed, hr, h]⟩⟩

/-- C10 witness: the DONE case at a concrete state. -/
theorem claim_C10_witness :
    passed { sampleState with states := fun _ => AState.DONE } 0 =
      Except.ok
        { sampleState with
          states := upd (fun _ => AState.DONE) 0 AState.PASSED,
          doneCallbackQueued := upd sampleState.doneCallbackQueued 0 true } :=
  (claim_C10_passed_after_done
    { sampleState with states := fun _ => AState.DONE } 0 rfl (Or.inl rfl)).1

/-! ### C9: `ensureRunning` and the BuildContext methods -/

theorem provide_isOk {st : DriverState} {a : ActionId} (f : FileId)
    (tags : List Tag) (hr : st.isRunning a = true) :
    ∃ st2, provide st a f tags = Except.ok st2 :=
  ⟨provideApply st a f tags, by unfold provide; rw [if_pos hr]⟩

/-- C9 (amended): every BuildContext method raises `NotRunning` exactly when
the action's `isRunning` flag is false — the flag, not the state enum, is
what `ensureRunning` checks, and it stays true between a terminal transition
and the deferred done callback. -/
theorem claim_C9_ensureRunning (st : DriverState) (a : ActionId) (tag : Tag)
    (path : ByteStr) (f : FileId) (tags : List Tag) (fac : FactoryId)
    (text : ByteStr) :
    isNotRunningErr (findProvider st a tag) = !st.isRunning a ∧
    isNotRunningErr (findInput st a path) = !st.isRunning a ∧
    isNotRunningErr (provide st a f tags) = !st.isRunning a ∧
    isNotRunningErr (newOutput st a path) = !st.isRunning a ∧
    isNotRunningErr (logCtx st a text) = !st.isRunning a ∧
    isNotRunningErr (addActionType st a fac) = !st.isRunning a ∧
    isNotRunningErr (passed st a) = !st.isRunning a ∧
    isNotRunningErr (failed st a) = !st.isRunning a := by
  by_cases hr : st.isRunning a = true
  · refine ⟨?_, ?_, ?_, ?_, ?_, ?_, ?_, ?_⟩ <;> rw [hr]
    · unfold findProvider
      rw [if_pos hr]
      cases choosePreferredProvider st a tag <;> rfl
    · unfold findInput findProvider
      rw [if_pos hr, if_pos hr]
      cases choosePreferredProvider st a (Tag.fromFile path) <;> rfl
    · obtain ⟨st2, h2⟩ := provide_isOk f tags hr
      rw [h2]; rfl
    · unfold newOutput
      rw [if_pos hr]
      obtain ⟨st2, h2⟩ := provide_isOk (st.tmpRelative path) [Tag.defaultTag] hr
      simp only [h2]
      rfl
    · unfold logCtx
      rw [if_pos hr]; rfl
    · unfold addActionType
      rw [if_pos hr]; rfl
    · unfold passed
      rw [if_pos hr]
      split_ifs <;> rfl
    · unfold failed
      rw [if_pos hr]
      split_ifs <;> rfl
  · have hr2 : st.isRunning a = false := by
      cases h : st.isRunning a
      · rfl
      · exact absurd h hr
    refine ⟨?_, ?_, ?_, ?_, ?_, ?_, ?_, ?_⟩ <;>
      simp [findProvider, findInput, provide, newOutput, logCtx, addActionType,
        passed, failed, hr2, isNotRunningErr]

/-- C9 counterexample to the claim as stated: on a concrete state whose action
is in the terminal state PASSED (`isRunning` still true, the done callback
not yet run), `findProvider` does not raise `NotRunning`. -/
theorem claim_C9_counterexample :
    ({ sampleState with
        states := fun _ => AState.PASSED } : DriverState).states 0 =
      AState.PASSED ∧
    isNotRunningErr
      (findProvider { sampleState with states := fun _ => AState.PASSED } 0
        Tag.defaultTag) = false := by
  constructor
  · rfl
  · rfl

/-! ### C6: deduplication of provisions by underlying file -/

theorem findFileIdx_none_iff {pf : ProvId → FileId} {f : FileId}
    {l : List ProvId} :
    findFileIdx pf f l = none ↔ ∀ q ∈ l, pf q ≠ f := by
  induction l with
  | nil => simp [findFileIdx]
  | cons p ps ih =>
    by_cases h : pf p = f
    · simp [findFileIdx, h]
    · simp [findFileIdx, h, ih]

theorem findFileIdx_some {pf : ProvId → FileId} {f : FileId} {l : List ProvId}
    {i : Nat} (h : findFileIdx pf f l = some i) :
    ∃ q, l[i]? = some q ∧ pf q = f := by
  induction l generalizing i with
  | nil => cases h
  | cons p ps ih =>
    by_cases hp : pf p = f
    · rw [findFileIdx, if_pos hp] at h
      cases h
      exact ⟨p, by simp, hp⟩
    · rw [findFileIdx, if_neg hp] at h
      cases hr : findFileIdx pf f ps with
      | none => rw [hr] at h; cases h
      | some j =>
        rw [hr] at h
        cases h
        obtain ⟨q, hq1, hq2⟩ := ih hr
        exact ⟨q, by simpa using hq1, hq2⟩

/-- C6: `provide(file, tags)` deduplicates by underlying-file equality: when a
provision with an equal file exists, no provision is allocated and `tags` is
appended to (hence, as a set, unioned into) that provision's tag list; when
none exists, exactly one fresh provision carrying exactly `tags` is appended;
and the no-two-provisions-with-equal-files invariant is preserved. -/
theorem claim_C6_provide_dedup (st : DriverState) (a : ActionId) (f : FileId)
    (tags : List Tag) (hr : st.isRunning a = true)
    (hpar : (st.providedTags a).length = (st.provisions a).length) :
    ((∃ q ∈ st.provisions a, st.provFile q = f) →
      ∃ st2, provide st a f tags = Except.ok st2 ∧
        st2.provisions a = st.provisions a ∧
        st2.nextProv = st.nextProv ∧
        ∃ i, provideFindIdx st a f = some i ∧
          st2.providedTags a = (st.providedTags a).modify (· ++ tags) i ∧
          ∀ t, t ∈ (st2.providedTags a).getD i [] ↔
            t ∈ (st.providedTags a).getD i [] ∨ t ∈ tags) ∧
    ((∀ q ∈ st.provisions a, st.provFile q ≠ f) →
      ∃ st2, provide st a f tags = Except.ok st2 ∧
        st2.provisions a = st.provisions a ++ [st.nextProv] ∧
        st2.providedTags a = st.providedTags a ++ [tags] ∧
        st2.provFile st.nextProv = f) ∧
    ((∀ q ∈ st.provisions a, q < st.nextProv) →
      (st.provisions a).Pairwise (fun p q => st.provFile p ≠ st.provFile q) →
      ∀ st2, provide st a f tags = Except.ok st2 →
        (st2.provisions a).Pairwise
          (fun p q => st2.provFile p ≠ st2.provFile q)) := by
  refine ⟨?_, ?_, ?_⟩
  · intro hex
    have hsome : ∃ i, provideFindIdx st a f = some i := by
      cases h : provideFindIdx st a f with
      | none =>
        obtain ⟨q, hq1, hq2⟩ := hex
        exact absurd hq2 (findFileIdx_none_iff.mp h q hq1)
      | some i => exact ⟨i, rfl⟩
    obtain ⟨i, hi⟩ := hsome
    obtain ⟨p, hp1, hp2⟩ := findFileIdx_some hi
    refine ⟨{ st with
        providedTags := upd st.providedTags a
          ((st.providedTags a).modify (· ++ tags) i),
        provFile := upd st.provFile p f }, ?_, rfl, rfl, i, hi, ?_, ?_⟩
    · unfold provide
      rw [if_pos hr]
      unfold provideApply
      rw [hi]
      simp only [hp1]
    · simp [upd]
    · intro t
      have hlen : i < (st.provisions a).length :=
        (List.getElem?_eq_some.mp hp1).1
      have hlen2 : i < (st.providedTags a).length := by omega
      obtain ⟨ts, hts⟩ : ∃ ts, (st.providedTags a)[i]? = some ts :=
        ⟨(st.providedTags a).get ⟨i, hlen2⟩, List.getElem?_eq_some.mpr ⟨hlen2, rfl⟩⟩
      have hmod : ((st.providedTags a).modify (· ++ tags) i)[i]? =
          some (ts ++ tags) := by
        rw [List.getElem?_modify_eq, hts]; rfl
      simp only [upd, if_pos rfl, if_true, List.getD_eq_getElem?_getD, hmod,
        hts, Option.getD_some, List.mem_append]
  · intro hnone
    have hn : provideFindIdx st a f = none := findFileIdx_none_iff.mpr hnone
    refine ⟨{ st with
        nextProv := st.nextProv + 1,
        provisions := upd st.provisions a (st.provisions a ++ [st.nextProv]),
        providedTags := upd st.providedTags a (st.providedTags a ++ [tags]),
        provFile := upd st.provFile st.nextProv f }, ?_, ?_, ?_, ?_⟩
    · unfold provide
      rw [if_pos hr]
      unfold provideApply
      rw [hn]
    · simp [upd]
    · simp [upd]
    · simp [upd]
  · intro hfresh hpw st2 hok
    cases hi : provideFindIdx st a f with
    | some i =>
      obtain ⟨p, hp1, hp2⟩ := findFileIdx_some hi
      unfold provide at hok
      rw [if_pos hr] at hok
      have hok2 := Except.ok.inj hok
      unfold provideApply at hok2
      rw [hi] at hok2
      simp only [hp1] at hok2
      have hpmem : p ∈ st.provisions a := by
        have hlen : i < (st.provisions a).length :=
          (List.getElem?_eq_some.mp hp1).1
        have := (List.getElem?_eq_some.mp hp1).2
        exact this ▸ List.getElem_mem hlen
      have hpf : ∀ x, st2.provFile x = st.provFile x := by
        intro x
        rw [← hok2]
        by_cases hx : x = p
        · subst hx
          simp [upd, hp2]
        · simp [upd, hx]
      have hpl : st2.provisions a = st.provisions a := by rw [← hok2]
      rw [hpl]
      refine hpw.imp ?_
      intro x y hxy
      rw [hpf, hpf]
      exact hxy
    | none =>
      unfold provide at hok
      rw [if_pos hr] at hok
      have hok2 := Except.ok.inj hok
      unfold provideApply at hok2
      rw [hi] at hok2
      have hpl : st2.provisions a = st.provisions a ++ [st.nextProv] := by
        rw [← hok2]; simp [upd]
      have hfiles : ∀ q ∈ st.provisions a, st.provFile q ≠ f :=
        findFileIdx_none_iff.mp hi
      have hpf : ∀ q ∈ st.provisions a, st2.provFile q = st.provFile q := by
        intro q hq
        rw [← hok2]
        have : q ≠ st.nextProv := Nat.ne_of_lt (hfresh q hq)
        simp [upd, this]
      have hpfn : st2.provFile st.nextProv = f := by
        rw [← hok2]; simp [upd]
      rw [hpl, List.pairwise_append]
      refine ⟨?_, List.pairwise_singleton _ _, ?_⟩
      · refine hpw.imp_of_mem ?_
        intro x y hx hy hxy
        rw [hpf x hx, hpf y hy]
        exact hxy
      · intro x hx y hy
        rw [List.mem_singleton.mp hy, hpf x hx, hpfn]
        exact hfiles x hx

/-! ### Monotonicity of the reset cascade -/

theorem ResetLe.refl (st : DriverState) : ResetLe st st :=
  ⟨List.Sublist.refl _, List.Sublist.refl _, List.Sublist.refl _,
    fun _ h => h, fun _ _ => Nat.le_refl _, fun _ => List.Sublist.refl _, rfl⟩

theorem ResetLe.trans {st1 st2 st3 : DriverState} (h12 : ResetLe st1 st2)
    (h23 : ResetLe st2 st3) : ResetLe st1 st3 := by
  obtain ⟨a12, c12, t12, s12, p12, v12, m12⟩ := h12
  obtain ⟨a23, c23, t23, s23, p23, v23, m23⟩ := h23
  exact ⟨a12.trans a23, c12.trans c23, t12.trans t23,
    fun b h => s12 b (s23 b h),
    fun b h => Nat.le_trans (p12 b (s23 b h)) (p23 b h),
    fun d => (v12 d).trans (v23 d), m12.trans m23⟩

/-- Folding steps that each satisfy `ResetLe` yields `ResetLe`. -/
theorem foldl_resetLe {α : Type} {f : DriverState → α → DriverState}
    (hf : ∀ st x, ResetLe (f st x) st) :
    ∀ (l : List α) (st : DriverState), ResetLe (l.foldl f st) st := by
  intro l
  induction l with
  | nil => intro st; exact ResetLe.refl st
  | cons x xs ih =>
    intro st
    exact (ih (f st x)).trans (hf st x)

theorem removeLastOccurrence_sublist (l : List ActionId) (a : ActionId) :
    (removeLastOccurrence l a).Sublist l := by
  unfold removeLastOccurrence
  have h1 : (l.reverse.erase a).Sublist l.reverse := List.erase_sublist _ _
  have h2 := List.Sublist.reverse h1
  simpa using h2

theorem count_removeLastOccurrence_le (l : List ActionId) (a b : ActionId) :
    (removeLastOccurrence l a).count b ≤ l.count b :=
  (removeLastOccurrence_sublist l a).count_le b

theorem resetBody_le {st : DriverState} {a : ActionId}
    (h : st.states a ≠ AState.PENDING) : ResetLe (resetBody st a) st := by
  unfold resetBody
  by_cases hr : st.isRunning a
  · rw [if_pos hr]
    refine ⟨List.erase_sublist _ _, List.Sublist.refl _, List.Sublist.refl _,
      ?_, ?_, fun _ => List.Sublist.refl _, rfl⟩
    · intro b hb
      simp only [upd]
      split_ifs with hba
      · rfl
      · exact hb
    · intro b hb
      have hba : b ≠ a := fun hc => h (hc ▸ hb)
      rw [List.count_append]
      simp [hba]
  · rw [if_neg hr]
    refine ⟨List.Sublist.refl _, List.erase_sublist _ _, List.Sublist.refl _,
      ?_, ?_, fun _ => List.Sublist.refl _, rfl⟩
    · intro b hb
      simp only [upd]
      split_ifs with hba
      · rfl
      · exact hb
    · intro b hb
      have hba : b ≠ a := fun hc => h (hc ▸ hb)
      rw [List.count_append]
      simp [hba]

theorem resetDelStepWith_le {resetF : DriverState → ActionId → DriverState}
    (hres : ∀ st b, ResetLe (resetF st b) st) (st : DriverState)
    (b : ActionId) : ResetLe (resetDelStepWith resetF st b) st := by
  unfold resetDelStepWith
  refine ResetLe.trans ?_ (hres st b)
  refine ⟨List.Sublist.refl _, List.Sublist.refl _, List.Sublist.refl _,
    fun _ h => h, ?_, fun _ => List.Sublist.refl _, rfl⟩
  intro c _
  exact count_removeLastOccurrence_le _ b c

theorem resetProvDeps_le {resetF : DriverState → ActionId → DriverState}
    (hres : ∀ st b, ResetLe (resetF st b) st) (st : DriverState) (p : ProvId) :
    ResetLe (resetProvDeps resetF st p) st := by
  unfold resetProvDeps
  exact foldl_resetLe hres _ st

theorem resetProvDels_le {resetF : DriverState → ActionId → DriverState}
    (hres : ∀ st b, ResetLe (resetF st b) st) (st : DriverState) (p : ProvId) :
    ResetLe (resetProvDels resetF st p) st := by
  unfold resetProvDels
  refine ResetLe.trans (foldl_resetLe (resetDelStepWith_le hres) _ _) ?_
  exact ⟨List.Sublist.refl _, List.Sublist.refl _, List.filter_sublist _,
    fun _ h => h, fun _ _ => Nat.le_refl _, fun _ => List.Sublist.refl _, rfl⟩

theorem resetProvErase_le (st : DriverState) (p : ProvId) :
    ResetLe (resetProvErase st p) st := by
  unfold resetProvErase
  exact ⟨List.Sublist.refl _, List.Sublist.refl _, List.Sublist.refl _,
    fun _ h => h, fun _ _ => Nat.le_refl _, fun _ => List.Sublist.refl _, rfl⟩

theorem resetProvWith_le {resetF : DriverState → ActionId → DriverState}
    (hres : ∀ st b, ResetLe (resetF st b) st) (st : DriverState) (p : ProvId) :
    ResetLe (resetProvWith resetF st p) st := by
  unfold resetProvWith
  exact ((resetProvErase_le _ _).trans (resetProvDels_le hres _ _)).trans
    (resetProvDeps_le hres _ _)

theorem resetFinish_le (st : DriverState) (a : ActionId) :
    ResetLe (resetFinish st a) st := by
  unfold resetFinish
  refine ⟨List.Sublist.refl _, List.Sublist.refl _, List.Sublist.refl _,
    fun _ h => h, fun _ _ => Nat.le_refl _, ?_, rfl⟩
  intro d
  simp only [upd]
  split_ifs with hd
  · exact List.nil_sublist _
  · exact List.Sublist.refl _

/-- A reset cascade only removes: the result is `ResetLe` the input, for any
fuel. -/
theorem reset_le : ∀ (fuel : Nat) (st : DriverState) (a : ActionId),
    ResetLe (reset fuel st a) st := by
  intro fuel
  induction fuel with
  | zero => intro st a; exact ResetLe.refl st
  | succ fuel ih =>
    intro st a
    unfold reset
    by_cases h : st.states a = AState.PENDING
    · rw [if_pos h]; exact ResetLe.refl st
    · rw [if_neg h]
      exact ((resetFinish_le _ _).trans
        (foldl_resetLe (resetProvWith_le ih) _ _)).trans (resetBody_le h)

/-! ### C5: reset is a no-op on PENDING actions and idempotent -/

theorem reset_pending_eq {fuel : Nat} {st : DriverState} {a : ActionId}
    (h : st.states a = AState.PENDING) : reset fuel st a = st := by
  cases fuel with
  | zero => rfl
  | succ fuel =>
    unfold reset
    rw [if_pos h]

theorem states_resetBody_self (st : DriverState) (a : ActionId) :
    (resetBody st a).states a = AState.PENDING := by
  unfold resetBody
  split_ifs <;> simp [upd]

theorem states_reset_self (fuel : Nat) (st : DriverState) (a : ActionId) :
    (reset (fuel + 1) st a).states a = AState.PENDING := by
  by_cases h : st.states a = AState.PENDING
  · rw [reset_pending_eq h]
    exact h
  · unfold reset
    rw [if_neg h]
    exact (foldl_resetLe (resetProvWith_le (reset_le fuel)) (st.provisions a)
      (resetBody st a)).2.2.2.1 a (states_resetBody_self st a)

/-- C5: `reset()` on a PENDING action changes nothing at all, and for any
action two consecutive resets leave the driver state exactly as one reset
does (the first reset leaves the action PENDING, so the second is the
PENDING no-op). -/
theorem claim_C5_reset_idempotent (fuel : Nat) (st : DriverState)
    (a : ActionId) :
    (st.states a = AState.PENDING → reset fuel st a = st) ∧
    reset (fuel + 1) (reset (fuel + 1) st a) a = reset (fuel + 1) st a := by
  constructor
  · intro h
    exact reset_pending_eq h
  · exact reset_pending_eq (states_reset_self fuel st a)

/-- C5 witness: the PENDING no-op and the idempotence equation at a concrete
state (action 0 RUNNING with no provisions). -/
theorem claim_C5_witness :
    reset 1 { sampleState with states := fun _ => AState.PENDING } 0 =
      { sampleState with states := fun _ => AState.PENDING } ∧
    reset 1 (reset 1 sampleState 0) 0 = reset 1 sampleState 0 :=
  ⟨(claim_C5_reset_idempotent 0
      { sampleState with states := fun _ => AState.PENDING } 0).1 rfl,
    (claim_C5_reset_idempotent 0 sampleState 0).2⟩

/-! ### C2: which actions a provider registration resets -/

/-- C2: after `registerProvider` inserts provision `p` under tag `T` into the
tag table, the actions collected for reset by `resetDependentActions(T)` are
exactly those with a dependency row `(T, action, prev)` whose preferred
provider for `T`, recomputed against the updated tag table, differs from
`prev`; `resetDependentActions` then folds `reset` over exactly that
collection. -/
theorem claim_C2_resetDependentActions (fuel : Nat) (st : DriverState)
    (tag : Tag) (p : ProvId) (b : ActionId) :
    (b ∈ resetDependentActionsCollect
        { st with tagTable := st.tagTable ++ [(tag, p)] } tag ↔
      ∃ prev, (tag, b, prev) ∈ st.dependencyTable ∧
        ¬ choosePreferredProvider
            { st with tagTable := st.tagTable ++ [(tag, p)] } b tag = prev) ∧
    resetDependentActions fuel
        { st with tagTable := st.tagTable ++ [(tag, p)] } tag =
      (resetDependentActionsCollect
          { st with tagTable := st.tagTable ++ [(tag, p)] } tag).foldl
        (reset fuel) { st with tagTable := st.tagTable ++ [(tag, p)] } := by
  constructor
  · simp only [resetDependentActionsCollect, List.mem_map, List.mem_filter,
      decide_eq_true_eq]
    constructor
    · rintro ⟨⟨t, c, prev⟩, ⟨⟨hmem, ht⟩, hch⟩, hcb⟩
      dsimp at ht hch hcb
      subst ht
      subst hcb
      exact ⟨prev, hmem, hch⟩
    · rintro ⟨prev, hmem, hne⟩
      exact ⟨(tag, b, prev), ⟨⟨hmem, rfl⟩, hne⟩, rfl⟩
  · rfl

/-! ### The FIFO drain of `startSomeActions` -/

theorem startSomeActions_spec : ∀ (st : DriverState),
    (startSomeActions st).pendingActions =
      st.pendingActions.drop
        (min (st.maxConcurrentActions - st.activeActions.length)
          st.pendingActions.length) ∧
    (startSomeActions st).activeActions =
      st.activeActions ++
        st.pendingActions.take
          (min (st.maxConcurrentActions - st.activeActions.length)
            st.pendingActions.length) := by
  intro st
  generalize hn : st.pendingActions.length = n
  induction n using Nat.strong_induction_on generalizing st with
  | _ n ih =>
    rw [startSomeActions]
    by_cases hlt : st.activeActions.length < st.maxConcurrentActions
    · rw [if_pos hlt]
      split
      · rename_i hp
        simp [hp]
      · rename_i a rest hp
        rw [hp] at hn
        have hrec := ih rest.length
          (by rw [← hn, List.length_cons]; exact Nat.lt_succ_self _)
          (startAction
            { st with
              pendingActions := rest,
              activeActions := st.activeActions ++ [a] } a) rfl
        obtain ⟨hrp, hra⟩ := hrec
        have hk : min (st.maxConcurrentActions - st.activeActions.length)
            (a :: rest).length =
            (min (st.maxConcurrentActions - (st.activeActions ++ [a]).length)
              rest.length) + 1 := by
          rw [List.length_cons, List.length_append, List.length_cons,
            List.length_nil]
          omega
        rw [hp, ← hn, hk]
        constructor
        · rw [hrp]
          simp [startAction, List.drop_succ_cons]
        · rw [hra]
          simp [startAction, List.take_succ_cons]
    · rw [if_neg hlt]
      have hz : st.maxConcurrentActions - st.activeActions.length = 0 := by
        omega
      simp [hz]

theorem startSomeActions_at_bound {st : DriverState}
    (h : st.maxConcurrentActions ≤ st.activeActions.length) :
    startSomeActions st = st := by
  rw [startSomeActions]
  rw [if_neg (Nat.not_lt.mpr h)]

/-! ### Active-set monotonicity of completion paths -/

theorem foldl_active_sublist {α : Type} {f : DriverState → α → DriverState}
    (hf : ∀ st x, (f st x).activeActions.Sublist st.activeActions) :
    ∀ (l : List α) (st : DriverState),
      ((l.foldl f st).activeActions).Sublist st.activeActions := by
  intro l
  induction l with
  | nil => intro st; exact List.Sublist.refl _
  | cons x xs ih =>
    intro st
    exact (ih (f st x)).trans (hf st x)

theorem queueNewAction_active (st : DriverState) (p : ProvId) :
    (queueNewAction st p).activeActions = st.activeActions := rfl

theorem fireTriggers_active_sublist (st : DriverState) (tag : Tag)
    (p : ProvId) :
    (fireTriggers st tag p).activeActions.Sublist st.activeActions := by
  unfold fireTriggers
  refine foldl_active_sublist ?_ _ st
  intro st2 f
  split_ifs
  · rw [queueNewAction_active]
  · exact List.Sublist.refl _

theorem resetDependentActions_active_sublist (fuel : Nat) (st : DriverState)
    (tag : Tag) :
    (resetDependentActions fuel st tag).activeActions.Sublist
      st.activeActions := by
  unfold resetDependentActions
  exact foldl_active_sublist (fun st2 b => (reset_le fuel st2 b).1) _ st

theorem registerProvider_active_sublist (fuel : Nat) (st : DriverState)
    (p : ProvId) (tags : List Tag) :
    (registerProvider fuel st p tags).activeActions.Sublist
      st.activeActions := by
  unfold registerProvider
  refine foldl_active_sublist ?_ tags _
  intro st2 tag
  unfold registerProviderTagStep
  exact (fireTriggers_active_sublist _ _ _).trans
    (resetDependentActions_active_sublist fuel _ tag)

theorem returnedRegisterLoop_active_sublist (fuel : Nat) (a : ActionId) :
    ∀ (n i : Nat) (st : DriverState),
      (returnedRegisterLoop fuel a n i st).activeActions.Sublist
        st.activeActions := by
  intro n
  induction n with
  | zero => intro i st; exact List.Sublist.refl _
  | succ n ih =>
    intro i st
    unfold returnedRegisterLoop
    split_ifs
    · exact (ih (i + 1) _).trans (registerProvider_active_sublist fuel st _ _)
    · exact List.Sublist.refl _

theorem returned_active_sublist (fuel : Nat) (st : DriverState)
    (a : ActionId) :
    (returned fuel st a).activeActions.Sublist st.activeActions := by
  unfold returned
  split_ifs
  · exact List.erase_sublist _ _
  · unfold clearProvidedTags
    refine List.Sublist.trans ?_ (List.erase_sublist a st.activeActions)
    exact returnedRegisterLoop_active_sublist fuel a _ 0
      (returnedSuccessState st a)
  · exact List.Sublist.refl _

theorem threwException_active_sublist (fuel : Nat) (st : DriverState)
    (a : ActionId) :
    (threwException fuel st a).activeActions.Sublist st.activeActions := by
  unfold threwException
  split_ifs
  · exact returned_active_sublist fuel _ a
  · exact List.Sublist.refl _

/-- C7: the concurrency bound.  `startSomeActions` keeps the active set at or
below `maxConcurrentActions` and does nothing at all when the bound is
already reached; completion (`returned`), `reset`, and the exception path
only ever remove actions from the active set. -/
theorem claim_C7_concurrency_bound (fuel : Nat) (st : DriverState)
    (a : ActionId) :
    (st.activeActions.length ≤ st.maxConcurrentActions →
      (startSomeActions st).activeActions.length ≤
        st.maxConcurrentActions) ∧
    (st.maxConcurrentActions ≤ st.activeActions.length →
      startSomeActions st = st) ∧
    (reset fuel st a).activeActions.Sublist st.activeActions ∧
    (returned fuel st a).activeActions.Sublist st.activeActions ∧
    (threwException fuel st a).activeActions.Sublist st.activeActions := by
  refine ⟨?_, fun h => startSomeActions_at_bound h, (reset_le fuel st a).1,
    returned_active_sublist fuel st a, threwException_active_sublist fuel st a⟩
  intro hle
  rw [(startSomeActions_spec st).2]
  rw [List.length_append, List.length_take]
  omega

/-- C7 witness: a concrete state with bound 1 and two pending actions;
`startSomeActions` fills the active set to the bound and not beyond, and the
removal-only facts at concrete inputs. -/
theorem claim_C7_witness :
    (startSomeActions
      { sampleState with
        activeActions := [], pendingActions := [5, 6] }).activeActions.length ≤
      1 ∧
    startSomeActions sampleState = sampleState ∧
    (reset 1 sampleState 0).activeActions.Sublist
      sampleState.activeActions := by
  have h := claim_C7_concurrency_bound 1
    { sampleState with activeActions := [], pendingActions := [5, 6] } 0
  have h2 := claim_C7_concurrency_bound 1 sampleState 0
  exact ⟨h.1 (by decide), h2.2.1 (by decide), h2.2.2.1⟩

/-- C8: the pending-queue discipline.  `queueNewAction` inserts the new
action at the queue front; an effective `reset` re-inserts the reset action
at the back (shown where its cascade is empty, i.e. the action holds no
provisions); `startSomeActions` drains from the front in FIFO order, taking
exactly the longest prefix allowed by the concurrency bound. -/
theorem claim_C8_queue_discipline (fuel : Nat) (st : DriverState) (p : ProvId)
    (a : ActionId) :
    (queueNewAction st p).pendingActions =
      st.nextAction :: st.pendingActions ∧
    (st.states a ≠ AState.PENDING → st.provisions a = [] →
      (reset (fuel + 1) st a).pendingActions = st.pendingActions ++ [a]) ∧
    (startSomeActions st).pendingActions =
      st.pendingActions.drop
        (min (st.maxConcurrentActions - st.activeActions.length)
          st.pendingActions.length) ∧
    (startSomeActions st).activeActions =
      st.activeActions ++
        st.pendingActions.take
          (min (st.maxConcurrentActions - st.activeActions.length)
            st.pendingActions.length) := by
  refine ⟨rfl, ?_, (startSomeActions_spec st).1, (startSomeActions_spec st).2⟩
  intro h hprov
  unfold reset
  rw [if_neg h, hprov]
  unfold resetFinish resetBody
  split_ifs <;> rfl

/-- C8 witness: the three queue-discipline facts at concrete states. -/
theorem claim_C8_witness :
    (queueNewAction sampleState 1).pendingActions = [10] ∧
    (reset (0 + 1) { sampleState with pendingActions := [7] } 0).pendingActions =
      [7, 0] ∧
    (startSomeActions
      { sampleState with
        activeActions := [], pendingActions := [5, 6] }).pendingActions =
      [6] := by
  have h1 := claim_C8_queue_discipline 0 sampleState 1 0
  have h2 := claim_C8_queue_discipline 0
    { sampleState with pendingActions := [7] } 1 0
  have h3 := claim_C8_queue_discipline 0
    { sampleState with activeActions := [], pendingActions := [5, 6] } 1 0
  refine ⟨?_, ?_, ?_⟩
  · exact h1.1
  · rw [h2.2.1 (by decide) rfl]
    decide
  · rw [h3.2.2.1]
    decide

/-- C6 witness: providing file 1 again unions tags into the existing
provision without allocating, and providing a new file 3 appends exactly one
fresh provision (id 5) carrying exactly the given tags. -/
theorem claim_C6_witness :
    (provideApply sampleStateProv 0 1 [Tag.named 2]).provisions 0 = [1] ∧
    (provideApply sampleStateProv 0 1 [Tag.named 2]).nextProv = 5 ∧
    (provideApply sampleStateProv 0 1 [Tag.named 2]).providedTags 0 =
      [[Tag.named 1, Tag.named 2]] ∧
    (provideApply sampleStateProv 0 3 [Tag.named 2]).provisions 0 = [1, 5] ∧
    (provideApply sampleStateProv 0 3 [Tag.named 2]).providedTags 0 =
      [[Tag.named 1], [Tag.named 2]] := by
  obtain ⟨st2, hok, hprov, hnext, i, hi, htags, -⟩ :=
    (claim_C6_provide_dedup sampleStateProv 0 1 [Tag.named 2] rfl rfl).1
      ⟨1, by decide, rfl⟩
  obtain ⟨st3, hok3, hprov3, htags3, -⟩ :=
    (claim_C6_provide_dedup sampleStateProv 0 3 [Tag.named 2] rfl rfl).2.1
      (by decide)
  have hi0 : i = 0 := Option.some.inj
    (hi.symm.trans (rfl : provideFindIdx sampleStateProv 0 1 = some 0))
  subst hi0
  have he2 : provideApply sampleStateProv 0 1 [Tag.named 2] = st2 :=
    Except.ok.inj hok
  have he3 : provideApply sampleStateProv 0 3 [Tag.named 2] = st3 :=
    Except.ok.inj hok3
  refine ⟨?_, ?_, ?_, ?_, ?_⟩
  · rw [he2, hprov]
    decide
  · rw [he2, hnext]
    decide
  · rw [he2, htags]
    decide
  · rw [he3, hprov3]
    decide
  · rw [he3, htags3]
    decide

/-! ### C3: trigger-spawned actions disappear with their provision -/

/-- Folding a property-preserving step preserves the property. -/
theorem foldl_preserve {α : Type} {P : DriverState → Prop}
    {f : DriverState → α → DriverState}
    (hf : ∀ st x, P st → P (f st x)) :
    ∀ (l : List α) (st : DriverState), P st → P (l.foldl f st) := by
  intro l
  induction l with
  | nil => intro st h; exact h
  | cons x xs ih =>
    intro st h
    exact ih (f st x) (hf st x h)

/-- Folding a step that preserves a property for list members. -/
theorem foldl_preserve_mem {α : Type} {P : DriverState → Prop}
    {f : DriverState → α → DriverState} :
    ∀ (l : List α), (∀ st x, x ∈ l → P st → P (f st x)) →
      ∀ (st : DriverState), P st → P (l.foldl f st) := by
  intro l
  induction l with
  | nil => intro _ st h; exact h
  | cons x xs ih =>
    intro hf st h
    exact ih (fun st2 y hy => hf st2 y (List.mem_cons_of_mem _ hy)) (f st x)
      (hf st x (List.mem_cons_self _ _) h)

theorem not_mem_removeLastOccurrence {l : List ActionId} {a : ActionId}
    (h : l.count a ≤ 1) : a ∉ removeLastOccurrence l a := by
  intro hmem
  have hc : (removeLastOccurrence l a).count a = 0 := by
    unfold removeLastOccurrence
    rw [List.count_reverse, List.count_erase_self, List.count_reverse]
    omega
  rw [List.count_eq_zero] at hc
  exact hc hmem

theorem qinv_resetBody {st : DriverState} {a : ActionId}
    (ha : st.states a ≠ AState.PENDING) (hq : QueueInv st) :
    QueueInv (resetBody st a) := by
  obtain ⟨q1, q2, q3, q4, q5, q6, q7⟩ := hq
  have hap : a ∉ st.pendingActions := fun hc => ha (q1 a hc)
  unfold resetBody
  by_cases hr : st.isRunning a
  · rw [if_pos hr]
    have hanc : a ∉ st.completedActions := q6 a hr
    refine ⟨?_, ?_, q3.erase a, q4, ?_, ?_, ?_⟩
    · intro b hb
      rcases List.mem_append.mp hb with hb | hb
      · have := q1 b hb
        simp only [upd]
        split_ifs with hba
        · rfl
        · exact this
      · rw [List.mem_singleton.mp hb]
        simp [upd]
    · rw [List.nodup_append]
      exact ⟨q2, List.nodup_singleton a,
        fun b hb hb2 => hap (List.mem_singleton.mp hb2 ▸ hb)⟩
    · intro b hb
      simp only [upd] at hb
      by_cases hba : b = a
      · subst hba
        exact ⟨List.Nodup.not_mem_erase q3, hanc⟩
      · rw [if_neg hba] at hb
        obtain ⟨h5a, h5c⟩ := q5 b hb
        exact ⟨fun hc => h5a ((List.erase_sublist a _).mem hc), h5c⟩
    · intro b hb
      simp only [upd] at hb
      by_cases hba : b = a
      · rw [if_pos hba] at hb; cases hb
      · rw [if_neg hba] at hb
        exact q6 b hb
    · intro b hb hb2
      simp only [upd] at hb hb2
      by_cases hba : b = a
      · rw [if_pos hba] at hb2
        exact absurd rfl hb2
      · rw [if_neg hba] at hb hb2
        intro hc
        exact q7 b hb hb2 ((List.erase_sublist a _).mem hc)
  · rw [if_neg hr]
    have hrf : st.isRunning a = false := by
      cases h : st.isRunning a
      · rfl
      · exact absurd h hr
    have hana : a ∉ st.activeActions := q7 a hrf ha
    refine ⟨?_, ?_, q3, q4.erase a, ?_, ?_, ?_⟩
    · intro b hb
      rcases List.mem_append.mp hb with hb | hb
      · have := q1 b hb
        simp only [upd]
        split_ifs with hba
        · rfl
        · exact this
      · rw [List.mem_singleton.mp hb]
        simp [upd]
    · rw [List.nodup_append]
      exact ⟨q2, List.nodup_singleton a,
        fun b hb hb2 => hap (List.mem_singleton.mp hb2 ▸ hb)⟩
    · intro b hb
      simp only [upd] at hb
      by_cases hba : b = a
      · subst hba
        exact ⟨hana, List.Nodup.not_mem_erase q4⟩
      · rw [if_neg hba] at hb
        obtain ⟨h5a, h5c⟩ := q5 b hb
        exact ⟨h5a, fun hc => h5c ((List.erase_sublist a _).mem hc)⟩
    · intro b hb
      intro hc
      exact q6 b hb ((List.erase_sublist a _).mem hc)
    · intro b hb hb2
      simp only [upd] at hb2
      by_cases hba : b = a
      · rw [if_pos hba] at hb2
        exact absurd rfl hb2
      · rw [if_neg hba] at hb2
        exact q7 b hb hb2

theorem qinv_removePending {st : DriverState} (b : ActionId)
    (hq : QueueInv st) :
    QueueInv
      { st with
        pendingActions := removeLastOccurrence st.pendingActions b } := by
  obtain ⟨q1, q2, q3, q4, q5, q6, q7⟩ := hq
  exact ⟨fun c hc => q1 c ((removeLastOccurrence_sublist _ b).mem hc),
    (removeLastOccurrence_sublist _ b).nodup q2, q3, q4, q5, q6, q7⟩

theorem qinv_resetDelStepWith
    {resetF : DriverState → ActionId → DriverState}
    (hres : ∀ st b, QueueInv st → QueueInv (resetF st b)) :
    ∀ (st : DriverState) (b : ActionId), QueueInv st →
      QueueInv (resetDelStepWith resetF st b) := by
  intro st b hq
  unfold resetDelStepWith
  exact qinv_removePending b (hres st b hq)

theorem qinv_resetProvWith {resetF : DriverState → ActionId → DriverState}
    (hres : ∀ st b, QueueInv st → QueueInv (resetF st b)) :
    ∀ (st : DriverState) (p : ProvId), QueueInv st →
      QueueInv (resetProvWith resetF st p) := by
  intro st p hq
  unfold resetProvWith resetProvErase
  have h1 : QueueInv (resetProvDeps resetF st p) := by
    unfold resetProvDeps
    exact foldl_preserve hres _ st hq
  have h2 : QueueInv (resetProvDels resetF (resetProvDeps resetF st p) p) := by
    unfold resetProvDels
    refine foldl_preserve (qinv_resetDelStepWith hres) _ _ ?_
    exact h1
  exact h2

theorem qinv_reset : ∀ (fuel : Nat) (st : DriverState) (a : ActionId),
    QueueInv st → QueueInv (reset fuel st a) := by
  intro fuel
  induction fuel with
  | zero => intro st a h; exact h
  | succ fuel ih =>
    intro st a hq
    unfold reset
    by_cases h : st.states a = AState.PENDING
    · rw [if_pos h]; exact hq
    · rw [if_neg h]
      have : QueueInv ((st.provisions a).foldl
          (resetProvWith (reset fuel)) (resetBody st a)) :=
        foldl_preserve (fun st2 p => qinv_resetProvWith ih st2 p) _ _
          (qinv_resetBody h hq)
      exact this

theorem resetBody_provisions (st : DriverState) (a : ActionId) :
    (resetBody st a).provisions = st.provisions := by
  unfold resetBody
  split_ifs <;> rfl

theorem resetBody_actionsByTrigger (st : DriverState) (a : ActionId) :
    (resetBody st a).actionsByTrigger = st.actionsByTrigger := by
  unfold resetBody
  split_ifs <;> rfl

theorem resetBody_states_other {st : DriverState} {a b : ActionId}
    (h : b ≠ a) : (resetBody st a).states b = st.states b := by
  unfold resetBody
  split_ifs <;> simp [upd, h]

theorem trig_resetBody {A P B : ActionId} {st : DriverState} {c : ActionId}
    (h : TrigIntact A P B st) (hc : st.states c ≠ AState.PENDING) :
    TrigIntact A P B (resetBody st c) := by
  obtain ⟨h1, h2, h3⟩ := h
  have hca : A ≠ c := fun he => hc (he ▸ h1)
  refine ⟨?_, ?_, ?_⟩
  · rw [resetBody_states_other hca]
    exact h1
  · rw [resetBody_provisions]
    exact h2
  · rw [resetBody_actionsByTrigger]
    exact h3

theorem trig_resetProvWith {A P B : ActionId}
    {resetF : DriverState → ActionId → DriverState}
    (hres : ∀ st c, TrigIntact A P B st → TrigIntact A P B (resetF st c))
    {p : ProvId} (hp : p ≠ P) (st : DriverState)
    (h : TrigIntact A P B st) :
    TrigIntact A P B (resetProvWith resetF st p) := by
  unfold resetProvWith
  have hdeps : TrigIntact A P B (resetProvDeps resetF st p) := by
    unfold resetProvDeps
    exact foldl_preserve hres _ st h
  have hdels : TrigIntact A P B
      (resetProvDels resetF (resetProvDeps resetF st p) p) := by
    unfold resetProvDels
    refine foldl_preserve ?_ _ _ ?_
    · intro st2 b h2
      unfold resetDelStepWith
      exact hres st2 b h2
    · obtain ⟨h1, h2, h3⟩ := hdeps
      refine ⟨h1, h2, ?_⟩
      rw [List.mem_filter]
      exact ⟨h3, decide_eq_true (fun he => hp (he.symm))⟩
  exact hdels

theorem trig_reset {A P B : ActionId} :
    ∀ (fuel : Nat) (st : DriverState) (c : ActionId),
      TrigIntact A P B st → TrigIntact A P B (reset fuel st c) := by
  intro fuel
  induction fuel with
  | zero => intro st c h; exact h
  | succ fuel ih =>
    intro st c h
    unfold reset
    by_cases hc : st.states c = AState.PENDING
    · rw [if_pos hc]; exact h
    · rw [if_neg hc]
      have hca : c ≠ A := fun he => hc (he ▸ h.1)
      have hnoP : P ∉ st.provisions c := h.2.1 c hca
      have hf : TrigIntact A P B ((st.provisions c).foldl
          (resetProvWith (reset fuel)) (resetBody st c)) := by
        refine foldl_preserve_mem _ ?_ _ (trig_resetBody h hc)
        intro st2 p hp hT
        have hpP : p ≠ P := fun he => hnoP (he ▸ hp)
        exact trig_resetProvWith ih hpP st2 hT
      obtain ⟨h1, h2, h3⟩ := hf
      refine ⟨h1, ?_, h3⟩
      intro d hd
      show P ∉ upd _ c ([] : List ProvId) d
      simp only [upd]
      split_ifs with hdc
      · exact List.not_mem_nil P
      · exact h2 d hd

theorem gone_of_resetLe {B : ActionId} {st st0 : DriverState}
    (hle : ResetLe st st0) (hg : Gone B st0) : Gone B st := by
  obtain ⟨g1, g2, g3, g4⟩ := hg
  refine ⟨hle.2.2.2.1 B g1, ?_, fun hc => g3 (hle.1.mem hc),
    fun hc => g4 (hle.2.1.mem hc)⟩
  have := hle.2.2.2.2.1 B g1
  omega

/-- An effective reset detaches the action from the active and completed sets
and leaves it exactly once in the pending queue. -/
theorem reset_detaches {fuel : Nat} {st : DriverState} {c : ActionId}
    (hq : QueueInv st) (hc : st.states c ≠ AState.PENDING) :
    c ∉ (reset (fuel + 1) st c).activeActions ∧
    c ∉ (reset (fuel + 1) st c).completedActions ∧
    (reset (fuel + 1) st c).pendingActions.count c ≤ 1 := by
  unfold reset
  rw [if_neg hc]
  obtain ⟨q1, q2, q3, q4, q5, q6, q7⟩ := hq
  have hcp : c ∉ st.pendingActions := fun h => hc (q1 c h)
  have hbody : c ∉ (resetBody st c).activeActions ∧
      c ∉ (resetBody st c).completedActions ∧
      (resetBody st c).pendingActions.count c = 1 := by
    unfold resetBody
    split_ifs with hr
    · refine ⟨List.Nodup.not_mem_erase q3, q6 c hr, ?_⟩
      rw [List.count_append, List.count_eq_zero.mpr hcp]
      simp
    · have hrf : st.isRunning c = false := by
        cases h : st.isRunning c
        · rfl
        · exact absurd h hr
      refine ⟨q7 c hrf hc, List.Nodup.not_mem_erase q4, ?_⟩
      rw [List.count_append, List.count_eq_zero.mpr hcp]
      simp
  have hle : ResetLe
      (resetFinish ((st.provisions c).foldl (resetProvWith (reset fuel))
        (resetBody st c)) c)
      (resetBody st c) :=
    (resetFinish_le _ _).trans
      (foldl_resetLe (resetProvWith_le (reset_le fuel)) _ _)
  refine ⟨fun h => hbody.1 (hle.1.mem h), fun h => hbody.2.1 (hle.2.1.mem h),
    ?_⟩
  have := hle.2.2.2.2.1 c (states_resetBody_self st c)
  omega

theorem gone_resetDelStep {fuel : Nat} {st : DriverState} {c : ActionId}
    (hq : QueueInv st) :
    Gone c (resetDelStepWith (reset (fuel + 1)) st c) := by
  unfold resetDelStepWith
  by_cases hc : st.states c = AState.PENDING
  · rw [reset_pending_eq hc]
    refine ⟨hc, ?_, (hq.2.2.2.2.1 c hc).1, (hq.2.2.2.2.1 c hc).2⟩
    rw [List.count_eq_zero]
    exact not_mem_removeLastOccurrence
      (List.nodup_iff_count_le_one.mp hq.2.1 c)
  · obtain ⟨d1, d2, d3⟩ := @reset_detaches fuel st c hq hc
    refine ⟨states_reset_self fuel st c, ?_, d1, d2⟩
    rw [List.count_eq_zero]
    exact not_mem_removeLastOccurrence d3

/-- Every action collected in the deletion loop ends up `Gone` after the
whole loop has run. -/
theorem delsFold_gone (fuel : Nat) :
    ∀ (dels : List ActionId) (st : DriverState), QueueInv st →
      ∀ b ∈ dels,
        Gone b (dels.foldl (resetDelStepWith (reset (fuel + 1))) st) := by
  intro dels
  induction dels with
  | nil => intro st _ b hb; cases hb
  | cons c cs ih =>
    intro st hq b hb
    rw [List.foldl_cons]
    rcases List.mem_cons.mp hb with hbc | hbcs
    · subst hbc
      exact gone_of_resetLe
        (foldl_resetLe (resetDelStepWith_le (reset_le (fuel + 1))) cs _)
        (gone_resetDelStep hq)
    · exact ih _ (qinv_resetDelStepWith (qinv_reset (fuel + 1)) st c hq) b hbcs

/-- C3: when an action `A` holding provision `P` is (effectively) reset,
every action `B` recorded in `actionsByTrigger[P]` is removed entirely from
the pending queue, the active set and the completed set, and no
`actionsByTrigger` entry keyed on `P` remains.  The hypotheses are the
driver's container discipline (`QueueInv`), that `A`'s provision objects are
distinct and `P` belongs to `A` alone, and fuel `≥ 2` so that the
trigger-spawned actions' own reset bodies run. -/
theorem claim_C3_trigger_teardown (fuel : Nat) (st : DriverState)
    (A : ActionId) (P : ProvId) (B : ActionId)
    (hq : QueueInv st)
    (hA : st.states A ≠ AState.PENDING)
    (hnd : (st.provisions A).Nodup)
    (hPA : P ∈ st.provisions A)
    (hexcl : ∀ d, d ≠ A → P ∉ st.provisions d)
    (hB : (P, B) ∈ st.actionsByTrigger) :
    B ∉ (reset (fuel + 2) st A).pendingActions ∧
    B ∉ (reset (fuel + 2) st A).activeActions ∧
    B ∉ (reset (fuel + 2) st A).completedActions ∧
    ∀ b, (P, b) ∉ (reset (fuel + 2) st A).actionsByTrigger := by
  obtain ⟨L1, L2, hL⟩ := List.append_of_mem hPA
  have hP1 : P ∉ L1 := by
    rw [hL] at hnd
    intro hc
    exact (List.nodup_append.mp hnd).2.2 hc (List.mem_cons_self _ _)
  have hre : reset (fuel + 2) st A =
      resetFinish
        (L2.foldl (resetProvWith (reset (fuel + 1)))
          (resetProvErase
            (resetProvDels (reset (fuel + 1))
              (resetProvDeps (reset (fuel + 1))
                (L1.foldl (resetProvWith (reset (fuel + 1)))
                  (resetBody st A)) P) P) P)) A := by
    rw [show fuel + 2 = (fuel + 1) + 1 from rfl]
    unfold reset
    rw [if_neg hA, hL, List.foldl_append, List.foldl_cons]
    rfl
  -- Stage 1: through the provisions before P, the queue invariant and the
  -- trigger row survive.
  have hbase : QueueInv (resetBody st A) ∧ TrigIntact A P B (resetBody st A) := by
    refine ⟨qinv_resetBody hA hq, states_resetBody_self st A, ?_, ?_⟩
    · rw [resetBody_provisions]
      exact hexcl
    · rw [resetBody_actionsByTrigger]
      exact hB
  have hstep : ∀ (st2 : DriverState) (p : ProvId), p ∈ L1 →
      QueueInv st2 ∧ TrigIntact A P B st2 →
      QueueInv (resetProvWith (reset (fuel + 1)) st2 p) ∧
      TrigIntact A P B (resetProvWith (reset (fuel + 1)) st2 p) := by
    intro st2 p hp hQT
    have hpP : p ≠ P := fun he => hP1 (he ▸ hp)
    exact ⟨qinv_resetProvWith (qinv_reset (fuel + 1)) st2 p hQT.1,
      trig_resetProvWith (fun st3 c ht => trig_reset (fuel + 1) st3 c ht)
        hpP st2 hQT.2⟩
  have hqT1 : QueueInv
      (L1.foldl (resetProvWith (reset (fuel + 1))) (resetBody st A)) ∧
      TrigIntact A P B
        (L1.foldl (resetProvWith (reset (fuel + 1))) (resetBody st A)) :=
    foldl_preserve_mem L1 hstep _ hbase
  -- Stage 2a: the dependents block of P's own loop iteration.
  have hqD : QueueInv
      (resetProvDeps (reset (fuel + 1))
        (L1.foldl (resetProvWith (reset (fuel + 1))) (resetBody st A)) P) := by
    unfold resetProvDeps
    exact foldl_preserve (fun st2 b h => qinv_reset (fuel + 1) st2 b h) _ _
      hqT1.1
  have hTD : TrigIntact A P B
      (resetProvDeps (reset (fuel + 1))
        (L1.foldl (resetProvWith (reset (fuel + 1))) (resetBody st A)) P) := by
    unfold resetProvDeps
    exact foldl_preserve (fun st2 b h => trig_reset (fuel + 1) st2 b h) _ _
      hqT1.2
  -- Stage 2b: the deletion block of P's iteration.
  have hgone : Gone B
      (resetProvDels (reset (fuel + 1))
        (resetProvDeps (reset (fuel + 1))
          (L1.foldl (resetProvWith (reset (fuel + 1))) (resetBody st A)) P)
        P) := by
    unfold resetProvDels
    refine delsFold_gone fuel _ _ ?_ B ?_
    · exact hqD
    · rw [List.mem_map]
      exact ⟨(P, B), List.mem_filter.mpr ⟨hTD.2.2, by simp⟩, rfl⟩
  have hfree : ∀ b, (P, b) ∉
      (resetProvDels (reset (fuel + 1))
        (resetProvDeps (reset (fuel + 1))
          (L1.foldl (resetProvWith (reset (fuel + 1))) (resetBody st A)) P)
        P).actionsByTrigger := by
    intro b hc
    unfold resetProvDels at hc
    have hcB := List.Sublist.mem hc
      (foldl_resetLe (resetDelStepWith_le (reset_le (fuel + 1))) _ _).2.2.1
    have := (List.mem_filter.mp hcB).2
    simp at this
  -- Stage 3: the remaining table erasures, the provisions after P, and the
  -- final cleanup only remove further.
  have hle : ResetLe
      (resetFinish
        (L2.foldl (resetProvWith (reset (fuel + 1)))
          (resetProvErase
            (resetProvDels (reset (fuel + 1))
              (resetProvDeps (reset (fuel + 1))
                (L1.foldl (resetProvWith (reset (fuel + 1)))
                  (resetBody st A)) P) P) P)) A)
      (resetProvErase
        (resetProvDels (reset (fuel + 1))
          (resetProvDeps (reset (fuel + 1))
            (L1.foldl (resetProvWith (reset (fuel + 1)))
              (resetBody st A)) P) P) P) :=
    (resetFinish_le _ _).trans
      (foldl_resetLe (resetProvWith_le (reset_le (fuel + 1))) L2 _)
  have hgF : Gone B
      (resetFinish
        (L2.foldl (resetProvWith (reset (fuel + 1)))
          (resetProvErase
            (resetProvDels (reset (fuel + 1))
              (resetProvDeps (reset (fuel + 1))
                (L1.foldl (resetProvWith (reset (fuel + 1)))
                  (resetBody st A)) P) P) P)) A) :=
    gone_of_resetLe hle hgone
  rw [hre]
  refine ⟨?_, hgF.2.2.1, hgF.2.2.2, ?_⟩
  · rw [← List.count_eq_zero]
    exact hgF.2.1
  · intro b hc
    exact hfree b (hle.2.2.1.mem hc)

theorem sampleStateC3_queueInv : QueueInv sampleStateC3 := by
  refine ⟨?_, ?_, ?_, ?_, ?_, ?_, ?_⟩
  · intro b hb
    have hb2 : b = 2 := List.mem_singleton.mp hb
    subst hb2
    rfl
  · decide
  · decide
  · decide
  · intro b hb
    by_cases hb2 : b = 2
    · subst hb2
      exact ⟨List.not_mem_nil 2, by decide⟩
    · exfalso
      have hd : sampleStateC3.states b = AState.DONE := if_neg hb2
      have := hd.symm.trans hb
      cases this
  · intro b hb
    exact absurd hb Bool.false_ne_true
  · intro b _ _
    exact List.not_mem_nil b

/-- C3 witness: resetting action 0 removes the trigger-spawned action 2 from
all three containers and leaves no `actionsByTrigger` row keyed on
provision 1. -/
theorem claim_C3_witness :
    2 ∉ (reset 2 sampleStateC3 0).pendingActions ∧
    2 ∉ (reset 2 sampleStateC3 0).activeActions ∧
    2 ∉ (reset 2 sampleStateC3 0).completedActions ∧
    (1, 2) ∉ (reset 2 sampleStateC3 0).actionsByTrigger := by
  have hexcl : ∀ d, d ≠ 0 → (1 : ProvId) ∉ sampleStateC3.provisions d := by
    intro d hd
    have hnil : sampleStateC3.provisions d = [] := if_neg hd
    rw [hnil]
    exact List.not_mem_nil 1
  have h := claim_C3_trigger_teardown 0 sampleStateC3 0 1 2
    sampleStateC3_queueInv (by decide) (by decide) (by decide) hexcl
    (by decide)
  exact ⟨h.1, h.2.1, h.2.2.1, h.2.2.2 2⟩

end Ekam
